import Mathlib

/-!
Shallow embedding of `flask_discord_interactions/context.py` (the interaction
parsing and dispatch core) and proofs about it.

Python dictionaries are modelled as association lists (`List (String × α)`)
with Python `dict` semantics: lookup finds the first matching key, assignment
replaces the value in place when the key exists and appends otherwise.
Python exceptions raised by the core are modelled by `PyError`
(`KeyError` / `ValueError` / `AttributeError`); fallible code returns
`Except PyError α`.
-/

/-- Python exceptions raised by the core.  `keyError` models `KeyError`
(the spec calls a resolved-table miss `UnresolvedReference`), `valueError`
models `ValueError` (the spec calls a coercion failure `InvalidState`). -/
inductive PyError where
  | keyError (key : String)
  | valueError (msg : String)
  | attributeError
deriving DecidableEq, Repr

/-- JSON values as they appear in interaction payloads. -/
inductive Json where
  | null
  | str (s : String)
  | int (n : Int)
  | bool (b : Bool)
  | obj (fields : List (String × Json))

/-- A parsed JSON object: string keys to JSON values, Python-dict semantics. -/
abbrev Dict := List (String × Json)

/-- Python `d[k]` / `d.get(k)`: first entry with the given key. -/
def dictGet {α : Type} : List (String × α) → String → Option α
  | [], _ => none
  | (k, v) :: rest, key => if k = key then some v else dictGet rest key

/-- Python `d[k] = v`: replace in place if the key exists, else append. -/
def dictInsert {α : Type} : List (String × α) → String → α → List (String × α)
  | [], key, v => [(key, v)]
  | (k, w) :: rest, key, v =>
      if k = key then (k, v) :: rest else (k, w) :: dictInsert rest key v

/-- Python `d.update(d2)`: assign every entry of `d2` into `d`, in order. -/
def dictUpdate {α : Type} (d d2 : List (String × α)) : List (String × α) :=
  d2.foldl (fun acc kv => dictInsert acc kv.1 kv.2) d

namespace ApplicationCommandType

/-- Modelled from the spec: the enum module (`models`) is not under `src/`.
The spec's §8 scenario pins `MESSAGE = 2`; `CHAT_INPUT` is the default
interaction type; the remaining value is arbitrary but distinct. -/
def CHAT_INPUT : Nat := 1

/-- Modelled from the spec: message-command interaction type (spec §8: type 2 = MESSAGE). -/
def MESSAGE : Nat := 2

/-- Modelled from the spec: user-command interaction type (value not pinned by the spec). -/
def USER : Nat := 3

end ApplicationCommandType

namespace CommandOptionType

/-- Modelled from the spec: option-type discriminators (`models` module not
under `src/`); the numbering is arbitrary but the constants are distinct. -/
def SUB_COMMAND : Nat := 1

/-- Modelled from the spec: subcommand-group option type. -/
def SUB_COMMAND_GROUP : Nat := 2

/-- Modelled from the spec: string option type. -/
def STRING : Nat := 3

/-- Modelled from the spec: integer option type. -/
def INTEGER : Nat := 4

/-- Modelled from the spec: boolean option type. -/
def BOOLEAN : Nat := 5

/-- Modelled from the spec: user option type. -/
def USER : Nat := 6

/-- Modelled from the spec: channel option type. -/
def CHANNEL : Nat := 7

/-- Modelled from the spec: role option type. -/
def ROLE : Nat := 8

/-- Modelled from the spec: mentionable option type. -/
def MENTIONABLE : Nat := 9

/-- Modelled from the spec: number option type. -/
def NUMBER : Nat := 10

/-- Modelled from the spec: attachment option type. -/
def ATTACHMENT : Nat := 11

end CommandOptionType

/-- One node of the command option tree: a `type` discriminator, a `name`,
a `value` (read only for leaf nodes) and a nested `options` array
(`data.get("options")`; an absent key behaves like the empty list). -/
inductive Opt where
  | mk (type : Nat) (name : String) (value : Json) (options : List Opt)

def Opt.type : Opt → Nat
  | .mk t _ _ _ => t

def Opt.name : Opt → String
  | .mk _ nm _ _ => nm

def Opt.value : Opt → Json
  | .mk _ _ v _ => v

def Opt.options : Opt → List Opt
  | .mk _ _ _ sub => sub

/-- Modelled from the spec: the entity models (`models` module) are not under
`src/`.  Per §4.1 the parse-from-map constructors are structural and total;
the model retains the source mapping, and accessors default missing keys to
the null-equivalent. -/
structure Member where
  fields : Dict

def Member.from_dict (d : Dict) : Member := ⟨d⟩

/-- The merged user record of a resolved member (`null` when absent). -/
def Member.user (m : Member) : Json := (dictGet m.fields "user").getD Json.null

/-- Modelled from the spec: channel entity (see `Member`). -/
structure Channel where
  fields : Dict

def Channel.from_dict (d : Dict) : Channel := ⟨d⟩

/-- Modelled from the spec: role entity (see `Member`). -/
structure Role where
  fields : Dict

def Role.from_dict (d : Dict) : Role := ⟨d⟩

/-- Modelled from the spec: message entity (see `Member`). -/
structure Message where
  fields : Dict

def Message.from_dict (d : Dict) : Message := ⟨d⟩

/-- The `content` field of a message (`null` when absent). -/
def Message.content (m : Message) : Json := (dictGet m.fields "content").getD Json.null

/-- Character-level embedding of Python `str.split(sep)` (no maxsplit):
every occurrence of the separator splits; `"".split(sep) == [""]`. -/
def splitChars (sep : Char) : List Char → List (List Char)
  | [] => [[]]
  | c :: cs =>
      if c = sep then [] :: splitChars sep cs
      else
        match splitChars sep cs with
        | [] => [[c]]
        | h :: t => (c :: h) :: t

/-- Character-level embedding of Python `str.split(sep, 1)`: split at the
first occurrence of the separator only. -/
def splitOnceChars (sep : Char) : List Char → List (List Char)
  | [] => [[]]
  | c :: cs =>
      if c = sep then [[], cs]
      else
        match splitOnceChars sep cs with
        | [] => [[c]]
        | h :: t => (c :: h) :: t

/-- `custom_id.split("\n")`. -/
def pySplitNL (s : String) : List String :=
  (splitChars '\n' s.data).map (fun l => String.mk l)

/-- `custom_id.split("\n", 1)`. -/
def pySplitOnceNL (s : String) : List String :=
  (splitOnceChars '\n' s.data).map (fun l => String.mk l)

/-- `Context.parse_custom_id`: primary id is `custom_id.split("\n", 1)[0]`,
handler state is `custom_id.split("\n")`. -/
def parse_custom_id (custom_id : String) : String × List String :=
  ((pySplitOnceNL custom_id).headD "", pySplitNL custom_id)

/-- ASCII whitespace stripped by Python `int()` around a numeric literal. -/
def pySpace (c : Char) : Bool :=
  c == ' ' || c == '\t' || c == '\n' || c == '\r' || c == '\x0B' || c == '\x0C'

/-- Base-10 value of a digit string. -/
def digitsToNat (ds : List Char) : Nat :=
  ds.foldl (fun acc c => acc * 10 + (c.toNat - 48)) 0

/-- A nonempty all-digit chunk parses; anything else does not. -/
def pyIntCore? (ds : List Char) : Option Nat :=
  if ds.isEmpty then none
  else if ds.all Char.isDigit then some (digitsToNat ds) else none

/-- Embedding of Python `int(s)` for base-10 string input: optional
surrounding whitespace, optional sign, then decimal digits.  (Python's
underscore digit grouping and non-ASCII digits are not modelled; no claim
depends on them.)  `none` models the `ValueError` raised on unparsable
input. -/
def pyInt? (s : String) : Option Int :=
  match ((s.data.dropWhile pySpace).reverse.dropWhile pySpace).reverse with
  | '-' :: ds => (pyIntCore? ds).map (fun n => -(n : Int))
  | '+' :: ds => (pyIntCore? ds).map (fun n => (n : Int))
  | ds => (pyIntCore? ds).map (fun n => (n : Int))

/-- Values a coerced handler-state token can take: the raw string, an `int`,
a `bool`, or Python `None` (from the token `"None"` against a `bool`
parameter). -/
inductive HVal where
  | str (s : String)
  | int (n : Int)
  | bool (b : Bool)
  | pynone
deriving DecidableEq, Repr

/-- A handler parameter's declared annotation, as compared by
`create_handler_args`: `int`, `bool`, or anything else (including a missing
annotation), which is never coerced. -/
inductive Ann where
  | intA
  | boolA
  | otherA (desc : String)
deriving DecidableEq, Repr

/-- One loop iteration of `Context.create_handler_args`: coerce one token
against one declared annotation. -/
def coerceOne (tok : String) (a : Ann) : Except PyError HVal :=
  match a with
  | .intA =>
      match pyInt? tok with
      | some n => .ok (.int n)
      | none => .error (.valueError ("invalid literal for int with base 10: " ++ tok))
  | .boolA =>
      if tok = "True" then .ok (.bool true)
      else if tok = "False" then .ok (.bool false)
      else if tok = "None" then .ok .pynone
      else .error (.valueError ("Invalid bool in handler state parsing: " ++ tok))
  | .otherA _ => .ok (.str tok)

/-- The coercion loop of `Context.create_handler_args`: `zip` truncates at
the shorter of the token list and the parameter list, so trailing tokens are
returned uncoerced and trailing parameters receive no argument. -/
def coerceLoop : List String → List Ann → Except PyError (List HVal)
  | toks, [] => .ok (toks.map .str)
  | [], _ :: _ => .ok []
  | tok :: toks, p :: ps =>
      match coerceOne tok p with
      | .error e => .error e
      | .ok v =>
          match coerceLoop toks ps with
          | .error e => .error e
          | .ok vs => .ok (v :: vs)

/-- `Context.create_handler_args`: drop token 0 (the primary id) and the
first declared parameter (which receives the Context), then coerce
positionally. -/
def create_handler_args (handler_state : List String) (params : List Ann) :
    Except PyError (List HVal) :=
  coerceLoop (handler_state.drop 1) (params.drop 1)

/-- The `"resolved"` sub-object of the interaction data: five independent
ID-to-record maps, each possibly absent (`none` models a missing key, read
through `.get(..., {})` or raising `KeyError` depending on the code path). -/
structure Resolved where
  members : Option (List (String × Dict))
  users : Option (List (String × Dict))
  channels : Option (List (String × Dict))
  roles : Option (List (String × Dict))
  messages : Option (List (String × Dict))

/-- The `resolved` value when the payload carries none: `{}`. -/
def Resolved.empty : Resolved := ⟨none, none, none, none, none⟩

/-- The `"data"` sub-object of an interaction payload; `none` fields model
absent keys. -/
structure InteractionData where
  type : Option Nat
  name : Option String
  id : Option String
  options : Option (List Opt)
  values : Option (List String)
  resolved : Option Resolved
  custom_id : Option String
  target_id : Option String

/-- An interaction data sub-object with every key absent. -/
def InteractionData.empty : InteractionData :=
  ⟨none, none, none, none, none, none, none, none⟩

/-- The root interaction payload, with the fields `Context.from_data`
reads; `none` fields model absent keys. -/
structure Payload where
  id : Option String
  token : Option String
  channel_id : Option String
  guild_id : Option String
  member : Option Dict
  data : Option InteractionData

/-- The empty payload `{}`. -/
def Payload.empty : Payload := ⟨none, none, none, none, none, none⟩

/-- The loop of `Context.parse_resolved` over `resolved.get("members", {})`:
each member record is merged in place with the `users` record of the same id
(`member_info["user"] = self.resolved["users"][id]`, a `KeyError` when the
`users` map or the id is absent), and a `Member` is built from the merged
record.  Returns the updated member records and the parsed member map. -/
def mergeMemberRecords (users : Option (List (String × Dict))) :
    List (String × Dict) →
    Except PyError (List (String × Dict) × List (String × Member))
  | [] => .ok ([], [])
  | (id, mrec) :: rest =>
      match users with
      | none => .error (.keyError "users")
      | some us =>
          match dictGet us id with
          | none => .error (.keyError id)
          | some u =>
              let mrec2 := dictInsert mrec "user" (Json.obj u)
              match mergeMemberRecords users rest with
              | .error e => .error e
              | .ok (rest2, mems) =>
                  .ok ((id, mrec2) :: rest2, (id, Member.from_dict mrec2) :: mems)

/-- `Context.parse_resolved`: build the four/five ID-to-entity maps; member
records are merged with their user records in place, so the retained
`resolved` value is updated as well. -/
def parse_resolved (r : Resolved) :
    Except PyError (Resolved × List (String × Member) × List (String × Channel) ×
      List (String × Role) × List (String × Message)) :=
  match mergeMemberRecords r.users (r.members.getD []) with
  | .error e => .error e
  | .ok (mems2, members) =>
      let r2 : Resolved :=
        { r with members := match r.members with | none => none | some _ => some mems2 }
      let channels := (r.channels.getD []).map (fun p => (p.1, Channel.from_dict p.2))
      let roles := (r.roles.getD []).map (fun p => (p.1, Role.from_dict p.2))
      let messages := (r.messages.getD []).map (fun p => (p.1, Message.from_dict p.2))
      .ok (r2, members, channels, roles, messages)

/-- The target of an interaction: a resolved member (user commands), a
resolved message (message commands), or `None`. -/
inductive Target where
  | noTarget
  | memberTarget (m : Member)
  | messageTarget (m : Message)

/-- `Context.parse_target`: user commands target the resolved member at
`target_id`, message commands the resolved message, anything else `None`.
An absent id is a `KeyError` (Python indexes the map directly; indexing with
`None` also raises `KeyError`). -/
def parse_target (ty : Nat) (target_id : Option String)
    (members : List (String × Member)) (messages : List (String × Message)) :
    Except PyError Target :=
  if ty = ApplicationCommandType.USER then
    match target_id with
    | none => .error (.keyError "None")
    | some tid =>
        match dictGet members tid with
        | none => .error (.keyError tid)
        | some m => .ok (.memberTarget m)
  else if ty = ApplicationCommandType.MESSAGE then
    match target_id with
    | none => .error (.keyError "None")
    | some tid =>
        match dictGet messages tid with
        | none => .error (.keyError tid)
        | some m => .ok (.messageTarget m)
  else .ok .noTarget

/-- Outbound request headers (a plain string map; their computation lives in
the collaborator `discord` object / frozen snapshot, outside the core). -/
abbrev Headers := List (String × String)

/-- The application-side configuration and registry the Context reads:
base URL, client id, the "do not contact remote API" flag
(`DONT_REGISTER_WITH_DISCORD`) and the command registry
(`app.discord_commands`, name to command id). -/
structure AppConfig where
  discord_base_url : String
  discord_client_id : String
  dont_register_with_discord : Bool
  discord_commands : List (String × String)
deriving DecidableEq, Repr

/-- The parsed interaction context (`Context` dataclass): every field
`Context.from_data` populates.  `authHeaders` models the value of the
`auth_headers` property, whose computation is delegated to the collaborator
`discord` object (or the frozen snapshot) outside the core. -/
structure Context where
  app : Option AppConfig
  authHeaders : Headers
  author : Member
  id : Option String
  type : Nat
  token : Option String
  channel_id : Option String
  guild_id : Option String
  options : Option (List Opt)
  values : List String
  resolved : Resolved
  command_name : Option String
  command_id : Option String
  custom_id : String
  primary_id : String
  handler_state : List String
  members : List (String × Member)
  channels : List (String × Channel)
  roles : List (String × Role)
  messages : List (String × Message)
  target_id : Option String
  target : Target

/-- `Context.from_data`: populate the fields from the raw payload, then run
`parse_custom_id`, `parse_resolved` and `parse_target` in order.  The
interaction type defaults to `CHAT_INPUT` when absent or falsy (`or`), and
`custom_id` defaults to `""` (`or ""`). -/
def Context.from_data (app : Option AppConfig) (authHeaders : Headers)
    (d : Payload) : Except PyError Context :=
  let idata := d.data
  let ty : Nat :=
    match idata.bind (fun i => i.type) with
    | some t => if t = 0 then ApplicationCommandType.CHAT_INPUT else t
    | none => ApplicationCommandType.CHAT_INPUT
  let custom_id := (idata.bind (fun i => i.custom_id)).getD ""
  let resolved0 := (idata.bind (fun i => i.resolved)).getD Resolved.empty
  let tid := idata.bind (fun i => i.target_id)
  match parse_resolved resolved0 with
  | .error e => .error e
  | .ok (resolved1, mems, chans, rols, msgs) =>
      match parse_target ty tid mems msgs with
      | .error e => .error e
      | .ok tgt =>
          .ok
            { app := app
              authHeaders := authHeaders
              author := Member.from_dict (d.member.getD [])
              id := d.id
              type := ty
              token := d.token
              channel_id := d.channel_id
              guild_id := d.guild_id
              options := idata.bind (fun i => i.options)
              values := (idata.bind (fun i => i.values)).getD []
              resolved := resolved1
              command_name := idata.bind (fun i => i.name)
              command_id := idata.bind (fun i => i.id)
              custom_id := custom_id
              primary_id := (parse_custom_id custom_id).1
              handler_state := (parse_custom_id custom_id).2
              members := mems
              channels := chans
              roles := rols
              messages := msgs
              target_id := tid
              target := tgt }

/-- A value produced by the argument reconstructor: a raw JSON value (leaf
values and subcommand-path names) or a resolved entity. -/
inductive ArgVal where
  | json (j : Json)
  | member (m : Member)
  | channel (c : Channel)
  | role (r : Role)
  | message (m : Message)

/-- `[self.target]` as built by `Context.create_args` for user and message
commands. -/
def targetToArgVal : Target → ArgVal
  | .noTarget => .json .null
  | .memberTarget m => .member m
  | .messageTarget m => .message m

/-- The user-option branch of `create_args_chat_input`:
`member_data = resolved["members"][option["value"]]`, then
`member_data["user"] = resolved["users"][option["value"]]` — an in-place
mutation of the record held inside `resolved`, reflected here by returning
the updated `Resolved` alongside the built `Member`.  Every missing map or
id is a `KeyError` (a non-string option value can match no JSON object key,
likewise a `KeyError`). -/
def resolveUser (r : Resolved) (v : Json) : Except PyError (Member × Resolved) :=
  match r.members with
  | none => .error (.keyError "members")
  | some mems =>
      match v with
      | .str idv =>
          match dictGet mems idv with
          | none => .error (.keyError idv)
          | some mrec =>
              match r.users with
              | none => .error (.keyError "users")
              | some us =>
                  match dictGet us idv with
                  | none => .error (.keyError idv)
                  | some u =>
                      let mrec2 := dictInsert mrec "user" (Json.obj u)
                      .ok (Member.from_dict mrec2,
                        { r with members := some (dictInsert mems idv mrec2) })
      | _ => .error (.keyError "value")

/-- The channel-option branch: `Channel.from_dict(resolved["channels"][value])`. -/
def resolveChannel (r : Resolved) (v : Json) : Except PyError Channel :=
  match r.channels with
  | none => .error (.keyError "channels")
  | some cs =>
      match v with
      | .str idv =>
          match dictGet cs idv with
          | none => .error (.keyError idv)
          | some crec => .ok (Channel.from_dict crec)
      | _ => .error (.keyError "value")

/-- The role-option branch: `Role.from_dict(resolved["roles"][value])`. -/
def resolveRole (r : Resolved) (v : Json) : Except PyError Role :=
  match r.roles with
  | none => .error (.keyError "roles")
  | some rs =>
      match v with
      | .str idv =>
          match dictGet rs idv with
          | none => .error (.keyError idv)
          | some rrec => .ok (Role.from_dict rrec)
      | _ => .error (.keyError "value")

mutual

/-- One iteration of the option loop in `create_args_recursive`: the
contribution `(args, kwargs, resolved)` of a single option node.  A
subcommand or subcommand-group node contributes its name followed by its
recursive positional results plus its recursive keyword results (an empty
nested options value short-circuits to `([], {})`); a user leaf contributes
the resolved member (and the resolved value updated by the in-place record
merge); channel and role leaves contribute the resolved entity; every other
leaf contributes its raw value. -/
def caStep (r : Resolved) (o : Opt) :
    Except PyError (List ArgVal × List (String × ArgVal) × Resolved) :=
  match o with
  | .mk t nm v sub =>
      if t = CommandOptionType.SUB_COMMAND ∨ t = CommandOptionType.SUB_COMMAND_GROUP then
        match (if sub.isEmpty then .ok ([], [], r) else caLoop r [] [] sub) with
        | .error e => .error e
        | .ok (sa, sk, r1) => .ok (ArgVal.json (.str nm) :: sa, sk, r1)
      else if t = CommandOptionType.USER then
        match resolveUser r v with
        | .error e => .error e
        | .ok (m, r2) => .ok ([], [(nm, .member m)], r2)
      else if t = CommandOptionType.CHANNEL then
        match resolveChannel r v with
        | .error e => .error e
        | .ok c => .ok ([], [(nm, .channel c)], r)
      else if t = CommandOptionType.ROLE then
        match resolveRole r v with
        | .error e => .error e
        | .ok rl => .ok ([], [(nm, .role rl)], r)
      else .ok ([], [(nm, .json v)], r)

/-- The option loop of `create_args_recursive` inside
`Context.create_args_chat_input`: fold every option's contribution into the
accumulated `args` (concatenation) and `kwargs` (`dict.update`, which for a
leaf's single entry is exactly `kwargs[name] = value`), threading the
`resolved` value mutated in place by user options. -/
def caLoop (r : Resolved) (args : List ArgVal) (kwargs : List (String × ArgVal)) :
    List Opt → Except PyError (List ArgVal × List (String × ArgVal) × Resolved)
  | [] => .ok (args, kwargs, r)
  | o :: rest =>
      match caStep r o with
      | .error e => .error e
      | .ok (sa, sk, r1) => caLoop r1 (args ++ sa) (dictUpdate kwargs sk) rest

end

/-- `Context.create_args_chat_input`: run `create_args_recursive` on
`{"options": self.options}`; a falsy options value (absent or empty) yields
`([], {})`. -/
def create_args_chat_input (options : Option (List Opt)) (r : Resolved) :
    Except PyError (List ArgVal × List (String × ArgVal) × Resolved) :=
  match options with
  | none => .ok ([], [], r)
  | some opts => if opts.isEmpty then .ok ([], [], r) else caLoop r [] [] opts

/-- `Context.create_args`: dispatch on the interaction type.  Chat-input
commands delegate to the reconstructor over `options` and `resolved` (the
context's `resolved` is updated with any in-place record mutation); user and
message commands return `([target], {})`; any other type returns `None`
(modelled as no argument pair).  The returned context carries the
post-call state of every field. -/
def Context.create_args (ctx : Context) :
    Except PyError (Option (List ArgVal × List (String × ArgVal)) × Context) :=
  if ctx.type = ApplicationCommandType.CHAT_INPUT then
    match create_args_chat_input ctx.options ctx.resolved with
    | .error e => .error e
    | .ok (a, k, r2) => .ok (some (a, k), { ctx with resolved := r2 })
  else if ctx.type = ApplicationCommandType.USER then
    .ok (some ([targetToArgVal ctx.target], []), ctx)
  else if ctx.type = ApplicationCommandType.MESSAGE then
    .ok (some ([targetToArgVal ctx.target], []), ctx)
  else .ok (none, ctx)

/-- Modelled from the spec: response normalization input
(`Message.from_return_value`, `models` module not under `src/`): a handler
may return a raw string or an already-structured message. -/
inductive RetVal where
  | text (s : String)
  | message (m : Message)

/-- Modelled from the spec: `Message.from_return_value` normalizes a raw
string into a message whose content is that string, and passes a structured
message through. -/
def Message.from_return_value : RetVal → Message
  | .text s => Message.from_dict [("content", Json.str s)]
  | .message m => m

/-- Modelled from the spec: `Message.dump_followup` serializes a message
into the edit-followup shape. -/
def dump_followup (m : Message) : Dict := m.fields

/-- Modelled from the spec: `Message.dump_multipart` serializes a message
into the (possibly attachment-bearing) create shape. -/
def dump_multipart (m : Message) : Dict := m.fields

/-- Modelled from the spec: a permission overwrite entry exposing `dump()`
(serialization; the permission model is not under `src/`). -/
structure Permission where
  dump : Dict

/-- The body of an outbound request: a JSON body, a multipart body, or the
permission-overwrite body `{"permissions": [...]}`. -/
inductive Body where
  | jsonBody (d : Dict)
  | multipart (d : Dict)
  | permissions (l : List Dict)

/-- Outbound HTTP method. -/
inductive Method where
  | post
  | patch
  | delete
  | put
deriving DecidableEq, Repr

/-- The observable description of one outbound HTTP call: method, URL,
the headers explicitly passed (`none` when the call passes no headers
argument), the body, and whether the code checks the response status
(`raise_for_status`, raising on non-2xx). -/
structure RequestSpec where
  method : Method
  url : String
  headers : Option Headers
  body : Option Body
  checkStatus : Bool

/-- Python f-string rendering of a possibly-`None` value. -/
def pyStr (o : Option String) : String := o.getD "None"

/-- `Context.followup_url`: `{base}/webhooks/{client_id}/{token}` plus
`/messages/{message}` when a message is given. -/
def followup_url (app : AppConfig) (token : Option String)
    (message : Option String) : String :=
  let base := app.discord_base_url ++ "/webhooks/" ++ app.discord_client_id
      ++ "/" ++ pyStr token
  match message with
  | none => base
  | some m => base ++ "/messages/" ++ m

/-- `Context.edit` (blocking variant): normalize the response, no-op when
there is no app or the "do not contact remote API" flag is set, else PATCH
the followup URL with the auth headers and check the status. -/
def Context.edit (ctx : Context) (response : RetVal) (message : String) :
    Option RequestSpec :=
  let resp := Message.from_return_value response
  match ctx.app with
  | none => none
  | some app =>
      if app.dont_register_with_discord then none
      else
        some { method := .patch
               url := followup_url app ctx.token (some message)
               headers := some ctx.authHeaders
               body := some (.jsonBody (dump_followup resp))
               checkStatus := true }

/-- `Context.delete` (blocking variant): DELETE the followup URL with the
auth headers and check the status; no-op under the flag. -/
def Context.delete (ctx : Context) (message : String) : Option RequestSpec :=
  match ctx.app with
  | none => none
  | some app =>
      if app.dont_register_with_discord then none
      else
        some { method := .delete
               url := followup_url app ctx.token (some message)
               headers := some ctx.authHeaders
               body := none
               checkStatus := true }

/-- `Context.send` (blocking variant): POST the multipart followup to the
followup URL with the auth headers and check the status; no-op under the
flag (checked before normalization). -/
def Context.send (ctx : Context) (response : RetVal) : Option RequestSpec :=
  match ctx.app with
  | none => none
  | some app =>
      if app.dont_register_with_discord then none
      else
        let resp := Message.from_return_value response
        some { method := .post
               url := followup_url app ctx.token none
               headers := some ctx.authHeaders
               body := some (.multipart (dump_multipart resp))
               checkStatus := true }

/-- `Context.get_command`: without a name, the invoked command's id; with a
name, look it up in the app registry, raising
`ValueError("Unknown command: ...")` on a miss (and `AttributeError` when
there is no app to consult). -/
def Context.get_command (ctx : Context) (command_name : Option String) :
    Except PyError (Option String) :=
  match command_name with
  | none => .ok ctx.command_id
  | some nm =>
      match ctx.app with
      | none => .error .attributeError
      | some app =>
          match dictGet app.discord_commands nm with
          | none => .error (.valueError ("Unknown command: " ++ nm))
          | some cid => .ok (some cid)

/-- The permission-overwrite URL
`{base}/applications/{client_id}/guilds/{guild_id}/commands/{command_id}/permissions`. -/
def permissions_url (app : AppConfig) (guild_id : Option String)
    (cid : Option String) : String :=
  app.discord_base_url ++ "/applications/" ++ app.discord_client_id
    ++ "/guilds/" ++ pyStr guild_id ++ "/commands/" ++ pyStr cid ++ "/permissions"

/-- `Context.overwrite_permissions` (blocking variant): the URL (including
the command-id lookup, which can fail) and the serialized permission list
are computed before the flag check, so a registry miss raises even under
the flag; otherwise PUT with the auth headers and check the status, or
no-op under the flag. -/
def Context.overwrite_permissions (ctx : Context) (permissions : List Permission)
    (command : Option String) : Except PyError (Option RequestSpec) :=
  match ctx.app with
  | none => .error .attributeError
  | some app =>
      match ctx.get_command command with
      | .error e => .error e
      | .ok cid =>
          let url := permissions_url app ctx.guild_id cid
          let data := permissions.map Permission.dump
          if app.dont_register_with_discord then .ok none
          else
            .ok (some { method := .put
                        url := url
                        headers := some ctx.authHeaders
                        body := some (.permissions data)
                        checkStatus := true })

/-- `AsyncContext.edit`: same URL and body as the blocking variant, but the
session call passes no headers argument and the status is never checked. -/
def AsyncContext.edit (ctx : Context) (response : RetVal) (message : String) :
    Option RequestSpec :=
  let resp := Message.from_return_value response
  match ctx.app with
  | none => none
  | some app =>
      if app.dont_register_with_discord then none
      else
        some { method := .patch
               url := followup_url app ctx.token (some message)
               headers := none
               body := some (.jsonBody (dump_followup resp))
               checkStatus := false }

/-- `AsyncContext.delete`: same URL as the blocking variant, but no headers
argument and no status check. -/
def AsyncContext.delete (ctx : Context) (message : String) : Option RequestSpec :=
  match ctx.app with
  | none => none
  | some app =>
      if app.dont_register_with_discord then none
      else
        some { method := .delete
               url := followup_url app ctx.token (some message)
               headers := none
               body := none
               checkStatus := false }

/-- `AsyncContext.send`: POST with the auth headers and multipart body as in
the blocking variant (normalization happens before the flag check), but the
status is never checked. -/
def AsyncContext.send (ctx : Context) (response : RetVal) : Option RequestSpec :=
  let resp := Message.from_return_value response
  match ctx.app with
  | none => none
  | some app =>
      if app.dont_register_with_discord then none
      else
        some { method := .post
               url := followup_url app ctx.token none
               headers := some ctx.authHeaders
               body := some (.multipart (dump_multipart resp))
               checkStatus := false }

/-- `AsyncContext.overwrite_permissions`: same URL, data and flag handling
as the blocking variant (including the pre-flag command lookup), but the
status is never checked. -/
def AsyncContext.overwrite_permissions (ctx : Context)
    (permissions : List Permission) (command : Option String) :
    Except PyError (Option RequestSpec) :=
  match ctx.app with
  | none => .error .attributeError
  | some app =>
      match ctx.get_command command with
      | .error e => .error e
      | .ok cid =>
          let url := permissions_url app ctx.guild_id cid
          let data := permissions.map Permission.dump
          if app.dont_register_with_discord then .ok none
          else
            .ok (some { method := .put
                        url := url
                        headers := some ctx.authHeaders
                        body := some (.permissions data)
                        checkStatus := false })

/-! ## Specification-side definitions used to state properties -/

/-- Join a list of character chunks with a separator character: the
spec-side inverse of splitting, used to characterize the token list. -/
def joinChars (sep : Char) : List (List Char) → List Char
  | [] => []
  | [x] => x
  | x :: y :: t => x ++ sep :: joinChars sep (y :: t)

/-- Does the resolved value have a member record for this id? -/
def membersHas (r : Resolved) (id : String) : Bool :=
  (dictGet (r.members.getD []) id).isSome

/-- Does the resolved value have a user record for this id? -/
def usersHas (r : Resolved) (id : String) : Bool :=
  (dictGet (r.users.getD []) id).isSome

/-- Does the resolved value have a channel record for this id? -/
def channelsHas (r : Resolved) (id : String) : Bool :=
  (dictGet (r.channels.getD []) id).isSome

/-- Does the resolved value have a role record for this id? -/
def rolesHas (r : Resolved) (id : String) : Bool :=
  (dictGet (r.roles.getD []) id).isSome

/-- The id-membership view of a resolved table: which entity ids each map
contains.  Argument reconstruction can mutate member records but never
changes this view. -/
@[ext] structure HasMaps where
  mem : String → Bool
  usr : String → Bool
  chan : String → Bool
  rol : String → Bool

/-- The id-membership view of a resolved value. -/
def Resolved.hasMaps (r : Resolved) : HasMaps :=
  ⟨membersHas r, usersHas r, channelsHas r, rolesHas r⟩

/-- Is this a subcommand / subcommand-group discriminator? -/
def isSubT (t : Nat) : Bool :=
  t == CommandOptionType.SUB_COMMAND || t == CommandOptionType.SUB_COMMAND_GROUP

/-- Is this an entity-resolving leaf discriminator (user/channel/role)? -/
def isEntityT (t : Nat) : Bool :=
  t == CommandOptionType.USER || t == CommandOptionType.CHANNEL || t == CommandOptionType.ROLE

/-- Is this a raw pass-through leaf discriminator
(string/integer/boolean/number/mentionable/attachment/...)? -/
def isRawLeafT (t : Nat) : Bool := !(isSubT t || isEntityT t)

mutual

/-- Does this option node reference an entity id absent from the
corresponding map of the given id-membership view?  (For a user option the
code consults both the members and the users map.) -/
def optHasUnresolved (hm : HasMaps) (o : Opt) : Bool :=
  match o with
  | .mk t _ v sub =>
      if isSubT t then optsHaveUnresolved hm sub
      else if t == CommandOptionType.USER then
        match v with
        | .str idv => !(hm.mem idv && hm.usr idv)
        | _ => false
      else if t == CommandOptionType.CHANNEL then
        match v with
        | .str idv => !(hm.chan idv)
        | _ => false
      else if t == CommandOptionType.ROLE then
        match v with
        | .str idv => !(hm.rol idv)
        | _ => false
      else false

/-- Does any option in this subtree list reference an unresolved entity id? -/
def optsHaveUnresolved (hm : HasMaps) : List Opt → Bool
  | [] => false
  | o :: rest => optHasUnresolved hm o || optsHaveUnresolved hm rest

end

/-- Every member record of the resolved value already carries its merged
user record (`record["user"] == resolved["users"][id]`).  `parse_resolved`
establishes this during construction, which is why the re-merge performed
by chat-input argument reconstruction is observably a no-op. -/
def MergedResolved (r : Resolved) : Prop :=
  ∀ id mrec, dictGet (r.members.getD []) id = some mrec →
    ∃ u, dictGet (r.users.getD []) id = some u ∧
      dictGet mrec "user" = some (Json.obj u)

/-- The ids of member records whose merge lookup in the users map would
fail: nonempty exactly when `parse_resolved` raises. -/
def badMembers (r : Resolved) : Bool :=
  (r.members.getD []).any (fun p => !(usersHas r p.1))

/-- The variant-independent core of an outbound request: method, URL and
body. -/
def reqCore (s : RequestSpec) : Method × String × Option Body :=
  (s.method, s.url, s.body)

/-- A sample application configuration with the "do not contact remote API"
flag clear. -/
def sampleApp : AppConfig :=
  { discord_base_url := "https://example.invalid/api"
    discord_client_id := "client42"
    dont_register_with_discord := false
    discord_commands := [] }

/-- A sample parsed context attached to `sampleApp`. -/
def sampleContext : Context :=
  { app := some sampleApp
    authHeaders := [("Authorization", "Bot abc")]
    author := ⟨[]⟩
    id := some "1"
    type := ApplicationCommandType.CHAT_INPUT
    token := some "tok"
    channel_id := none
    guild_id := some "g1"
    options := none
    values := []
    resolved := Resolved.empty
    command_name := some "cmd"
    command_id := some "cmd-id"
    custom_id := ""
    primary_id := ""
    handler_state := [""]
    members := []
    channels := []
    roles := []
    messages := []
    target_id := none
    target := .noTarget }

/-- `sampleApp` with the "do not contact remote API" flag set. -/
def offlineApp : AppConfig := { sampleApp with dont_register_with_discord := true }

/-- `sampleContext` running against `offlineApp`. -/
def offlineContext : Context := { sampleContext with app := some offlineApp }

/-- The spec §8 scenario payload:
`{"data":{"type":2,"target_id":"42","resolved":{"messages":{"42":{"id":"42","content":"hi"}}}}}`. -/
def scenarioPayload : Payload :=
  { Payload.empty with
      data := some
        { InteractionData.empty with
            type := some 2
            target_id := some "42"
            resolved := some
              { Resolved.empty with
                  messages := some [("42", [("id", Json.str "42"), ("content", Json.str "hi")])] } } }

/-- The context `Context.from_data` builds from `scenarioPayload` (with no
app and empty auth headers). -/
def scenarioContext : Context :=
  { app := none
    authHeaders := []
    author := ⟨[]⟩
    id := none
    type := 2
    token := none
    channel_id := none
    guild_id := none
    options := none
    values := []
    resolved :=
      { Resolved.empty with
          messages := some [("42", [("id", Json.str "42"), ("content", Json.str "hi")])] }
    command_name := none
    command_id := none
    custom_id := ""
    primary_id := ""
    handler_state := [""]
    members := []
    channels := []
    roles := []
    messages := [("42", ⟨[("id", Json.str "42"), ("content", Json.str "hi")]⟩)]
    target_id := some "42"
    target := .messageTarget ⟨[("id", Json.str "42"), ("content", Json.str "hi")]⟩ }


/-- A payload whose custom id is `"key\nA\nB"`. -/
def c2Payload : Payload :=
  { Payload.empty with
      data := some { InteractionData.empty with custom_id := some "key\nA\nB" } }

/-- A payload whose resolved table has one member with a matching user. -/
def mergePayload : Payload :=
  { Payload.empty with
      data := some
        { InteractionData.empty with
            resolved := some
              { Resolved.empty with
                  members := some [("7", [("nick", Json.str "n")])]
                  users := some [("7", [("id", Json.str "7")])] } } }

/-- The user record of `userOptionPayload`. -/
def sampleUserRecord : Dict := [("id", Json.str "7")]

/-- The member record of `userOptionPayload` after the construction-time
user merge. -/
def mergedMemberRecord : Dict := [("nick", Json.str "n"), ("user", Json.obj sampleUserRecord)]

/-- A chat-input payload with one user option referencing resolved member
`"7"`. -/
def userOptionPayload : Payload :=
  { Payload.empty with
      data := some
        { InteractionData.empty with
            options := some [Opt.mk CommandOptionType.USER "u" (Json.str "7") []]
            resolved := some
              { Resolved.empty with
                  members := some [("7", [("nick", Json.str "n")])]
                  users := some [("7", sampleUserRecord)] } } }

/-- The context `Context.from_data` builds from `userOptionPayload`. -/
def userOptionContext : Context :=
  { app := none
    authHeaders := []
    author := ⟨[]⟩
    id := none
    type := ApplicationCommandType.CHAT_INPUT
    token := none
    channel_id := none
    guild_id := none
    options := some [Opt.mk CommandOptionType.USER "u" (Json.str "7") []]
    values := []
    resolved :=
      { members := some [("7", mergedMemberRecord)]
        users := some [("7", sampleUserRecord)]
        channels := none
        roles := none
        messages := none }
    command_name := none
    command_id := none
    custom_id := ""
    primary_id := ""
    handler_state := [""]
    members := [("7", ⟨mergedMemberRecord⟩)]
    channels := []
    roles := []
    messages := []
    target_id := none
    target := .noTarget }

/-! ## Association-list (Python dict) lemmas -/

theorem dictGet_dictInsert_self {α : Type} (l : List (String × α)) (k : String) (v : α) :
    dictGet (dictInsert l k v) k = some v := by
  induction l with
  | nil => simp [dictGet, dictInsert]
  | cons p rest ih =>
      obtain ⟨k0, v0⟩ := p
      by_cases hk : k0 = k
      · simp [dictInsert, hk, dictGet]
      · simp [dictInsert, hk, dictGet, ih]

theorem dictInsert_of_get_eq {α : Type} (l : List (String × α)) (k : String) (v : α)
    (h : dictGet l k = some v) : dictInsert l k v = l := by
  induction l with
  | nil => simp [dictGet] at h
  | cons p rest ih =>
      obtain ⟨k0, v0⟩ := p
      by_cases hk : k0 = k
      · subst hk
        simp [dictGet] at h
        simp [dictInsert, h]
      · simp [dictGet, hk] at h
        simp [dictInsert, hk, ih h]

theorem dictGet_dictInsert_isSome {α : Type} (l : List (String × α)) (k k' : String) (v : α)
    (h : (dictGet l k).isSome) :
    (dictGet (dictInsert l k v) k').isSome = (dictGet l k').isSome := by
  induction l with
  | nil => simp [dictGet] at h
  | cons p rest ih =>
      obtain ⟨k0, v0⟩ := p
      by_cases hk : k0 = k
      · subst hk
        simp only [dictInsert, if_pos rfl]
        by_cases hk' : k0 = k' <;> simp [dictGet, hk']
      · simp [dictGet, hk] at h
        simp [dictInsert, hk, dictGet]
        by_cases hk' : k0 = k' <;> simp [hk', ih h]

theorem dictInsert_of_get_none {α : Type} (l : List (String × α)) (k : String) (v : α)
    (h : dictGet l k = none) : dictInsert l k v = l ++ [(k, v)] := by
  induction l with
  | nil => simp [dictInsert]
  | cons p rest ih =>
      obtain ⟨k0, v0⟩ := p
      by_cases hk : k0 = k
      · simp [dictGet, hk] at h
      · simp [dictGet, hk] at h
        simp [dictInsert, hk, ih h]

theorem dictUpdate_singleton {α : Type} (d : List (String × α)) (k : String) (v : α) :
    dictUpdate d [(k, v)] = dictInsert d k v := rfl

theorem dictGet_append_left {α : Type} (l l2 : List (String × α)) (k : String)
    (h : dictGet l k = none) : dictGet (l ++ l2) k = dictGet l2 k := by
  induction l with
  | nil => simp
  | cons p rest ih =>
      obtain ⟨k0, v0⟩ := p
      by_cases hk : k0 = k
      · simp [dictGet, hk] at h
      · simp [dictGet, hk] at h ⊢
        exact ih h

/-! ## Split / join lemmas for the custom-id codec -/

theorem splitChars_ne_nil (sep : Char) (l : List Char) : splitChars sep l ≠ [] := by
  induction l with
  | nil => simp [splitChars]
  | cons c cs ih =>
      by_cases h : c = sep
      · simp [splitChars, h]
      · simp only [splitChars, if_neg h]
        cases hs : splitChars sep cs with
        | nil => simp
        | cons a b => simp

theorem splitChars_headD (sep : Char) (l : List Char) :
    (splitChars sep l).headD [] = l.takeWhile (fun c => c != sep) := by
  induction l with
  | nil => simp [splitChars]
  | cons c cs ih =>
      by_cases h : c = sep
      · simp [splitChars, h, List.takeWhile]
      · simp only [splitChars, if_neg h]
        cases hs : splitChars sep cs with
        | nil => exact absurd hs (splitChars_ne_nil sep cs)
        | cons a b =>
            rw [hs] at ih
            simp only [List.headD_cons] at ih
            simp [List.takeWhile_cons, bne_iff_ne, h, ih]

theorem splitOnceChars_ne_nil (sep : Char) (l : List Char) : splitOnceChars sep l ≠ [] := by
  induction l with
  | nil => simp [splitOnceChars]
  | cons c cs ih =>
      by_cases h : c = sep
      · simp [splitOnceChars, h]
      · simp only [splitOnceChars, if_neg h]
        cases hs : splitOnceChars sep cs with
        | nil => simp
        | cons a b => simp

theorem splitOnceChars_headD (sep : Char) (l : List Char) :
    (splitOnceChars sep l).headD [] = l.takeWhile (fun c => c != sep) := by
  induction l with
  | nil => simp [splitOnceChars]
  | cons c cs ih =>
      by_cases h : c = sep
      · simp [splitOnceChars, h, List.takeWhile]
      · simp only [splitOnceChars, if_neg h]
        cases hs : splitOnceChars sep cs with
        | nil => exact absurd hs (splitOnceChars_ne_nil sep cs)
        | cons a b =>
            rw [hs] at ih
            simp only [List.headD_cons] at ih
            simp [List.takeWhile_cons, bne_iff_ne, h, ih]

theorem splitChars_not_mem (sep : Char) (l : List Char) :
    ∀ p ∈ splitChars sep l, sep ∉ p := by
  induction l with
  | nil => simp [splitChars]
  | cons c cs ih =>
      by_cases h : c = sep
      · simp only [splitChars, if_pos h]
        intro p hp
        rcases List.mem_cons.mp hp with hp | hp
        · simp [hp]
        · exact ih p hp
      · simp only [splitChars, if_neg h]
        cases hs : splitChars sep cs with
        | nil => exact absurd hs (splitChars_ne_nil sep cs)
        | cons a b =>
            intro p hp
            rcases List.mem_cons.mp hp with hp | hp
            · subst hp
              intro hmem
              rcases List.mem_cons.mp hmem with hmem | hmem
              · exact h hmem.symm
              · exact ih a (by simp [hs]) hmem
            · exact ih p (by simp [hs, hp])

theorem joinChars_splitChars (sep : Char) (l : List Char) :
    joinChars sep (splitChars sep l) = l := by
  induction l with
  | nil => simp [splitChars, joinChars]
  | cons c cs ih =>
      by_cases h : c = sep
      · simp only [splitChars, if_pos h]
        cases hs : splitChars sep cs with
        | nil => exact absurd hs (splitChars_ne_nil sep cs)
        | cons a b =>
            rw [hs] at ih
            simp [joinChars, ih, h]
      · simp only [splitChars, if_neg h]
        cases hs : splitChars sep cs with
        | nil => exact absurd hs (splitChars_ne_nil sep cs)
        | cons a b =>
            rw [hs] at ih
            cases b with
            | nil => simp [joinChars] at ih ⊢; simp [ih]
            | cons y t => simp [joinChars] at ih ⊢; simp [ih]

/-! ## Handler-state coercion lemmas -/

theorem coerceOne_error_shape (tok : String) (p : Ann) (e : PyError)
    (h : coerceOne tok p = .error e) : ∃ m, e = .valueError m := by
  unfold coerceOne at h
  repeat' split at h
  all_goals simp_all
  all_goals exact ⟨_, h.symm⟩

theorem coerceLoop_ok_get :
    ∀ (toks : List String) (ps : List Ann) (out : List HVal) (i : Nat) tok p,
      coerceLoop toks ps = .ok out → toks[i]? = some tok → ps[i]? = some p →
      ∃ v, coerceOne tok p = .ok v ∧ out[i]? = some v := by
  intro toks
  induction toks with
  | nil => intro ps out i tok p h ht hp; simp at ht
  | cons a as ih =>
      intro ps out i tok p h ht hp
      cases ps with
      | nil => simp at hp
      | cons q qs =>
          unfold coerceLoop at h
          cases hc : coerceOne a q with
          | error e => rw [hc] at h; simp at h
          | ok v =>
              rw [hc] at h
              cases hrec : coerceLoop as qs with
              | error e => rw [hrec] at h; simp at h
              | ok vs =>
                  rw [hrec] at h
                  simp at h
                  subst h
                  cases i with
                  | zero =>
                      simp at ht hp
                      subst ht; subst hp
                      exact ⟨v, hc, by simp⟩
                  | succ n =>
                      simp at ht hp ⊢
                      exact ih qs vs n tok p hrec ht hp

theorem coerceLoop_ok_length :
    ∀ (toks : List String) (ps : List Ann) (out : List HVal),
      coerceLoop toks ps = .ok out → out.length = toks.length := by
  intro toks
  induction toks with
  | nil =>
      intro ps out h
      cases ps <;> (unfold coerceLoop at h; simp at h; simp [h.symm])
  | cons a as ih =>
      intro ps out h
      cases ps with
      | nil =>
          unfold coerceLoop at h
          simp at h
          simp [h.symm]
      | cons q qs =>
          unfold coerceLoop at h
          cases hc : coerceOne a q with
          | error e => rw [hc] at h; simp at h
          | ok v =>
              rw [hc] at h
              cases hrec : coerceLoop as qs with
              | error e => rw [hrec] at h; simp at h
              | ok vs =>
                  rw [hrec] at h
                  simp at h
                  subst h
                  simp [ih qs vs hrec]

theorem coerceLoop_ok_extra :
    ∀ (toks : List String) (ps : List Ann) (out : List HVal) (i : Nat) tok,
      coerceLoop toks ps = .ok out → ps.length ≤ i → toks[i]? = some tok →
      out[i]? = some (.str tok) := by
  intro toks
  induction toks with
  | nil => intro ps out i tok h hlen ht; simp at ht
  | cons a as ih =>
      intro ps out i tok h hlen ht
      cases ps with
      | nil =>
          unfold coerceLoop at h
          simp at h
          subst h
          rw [← List.map_cons, List.getElem?_map, ht]
          rfl
      | cons q qs =>
          unfold coerceLoop at h
          cases hc : coerceOne a q with
          | error e => rw [hc] at h; simp at h
          | ok v =>
              rw [hc] at h
              cases hrec : coerceLoop as qs with
              | error e => rw [hrec] at h; simp at h
              | ok vs =>
                  rw [hrec] at h
                  simp at h
                  subst h
                  cases i with
                  | zero => exact absurd hlen (by simp)
                  | succ n =>
                      simp at ht hlen ⊢
                      exact ih qs vs n tok hrec hlen ht

theorem coerceLoop_error_of_pos :
    ∀ (toks : List String) (ps : List Ann) (i : Nat) tok p e,
      toks[i]? = some tok → ps[i]? = some p → coerceOne tok p = .error e →
      ∃ m, coerceLoop toks ps = .error (.valueError m) := by
  intro toks
  induction toks with
  | nil => intro ps i tok p e ht hp hc; simp at ht
  | cons a as ih =>
      intro ps i tok p e ht hp hc
      cases ps with
      | nil => simp at hp
      | cons q qs =>
          cases i with
          | zero =>
              simp at ht hp
              subst ht; subst hp
              obtain ⟨m, hm⟩ := coerceOne_error_shape a q e hc
              subst hm
              exact ⟨m, by unfold coerceLoop; rw [hc]⟩
          | succ n =>
              simp at ht hp
              cases hc0 : coerceOne a q with
              | error e0 =>
                  obtain ⟨m, hm⟩ := coerceOne_error_shape a q e0 hc0
                  subst hm
                  exact ⟨m, by unfold coerceLoop; rw [hc0]⟩
              | ok v =>
                  obtain ⟨m, hm⟩ := ih qs n tok p e ht hp hc
                  exact ⟨m, by unfold coerceLoop; rw [hc0, hm]⟩

/-! ## Claim theorems: custom-id state coercion (C3, C4) -/

/-- C3: per-position coercion of handler-state tokens against the declared
parameter types (skipping the Context parameter): an `int` parameter parses
its token as a base-10 integer and an unparsable token fails the whole
coercion with the `InvalidState` error (a `ValueError`); a `bool` parameter
maps `"True"`/`"False"`/`"None"` to true/false/None and fails with the
`InvalidState` error on anything else; any other declared type passes the
token through unchanged.  A failure yields `Except.error`, so no argument
list is ever produced and the handler cannot be invoked. -/
theorem create_handler_args_coercion_correct (state : List String) (params : List Ann) :
    (∀ (out : List HVal), create_handler_args state params = .ok out →
      ∀ (i : Nat) (tok : String) (p : Ann),
        (state.drop 1)[i]? = some tok → (params.drop 1)[i]? = some p →
        ((p = .intA → ∃ n, pyInt? tok = some n ∧ out[i]? = some (.int n)) ∧
         (p = .boolA →
            (tok = "True" → out[i]? = some (.bool true)) ∧
            (tok = "False" → out[i]? = some (.bool false)) ∧
            (tok = "None" → out[i]? = some .pynone)) ∧
         (∀ s, p = .otherA s → out[i]? = some (.str tok)))) ∧
    (∀ (i : Nat) (tok : String) (p : Ann),
        (state.drop 1)[i]? = some tok → (params.drop 1)[i]? = some p →
        ((p = .intA ∧ pyInt? tok = none) ∨
         (p = .boolA ∧ tok ≠ "True" ∧ tok ≠ "False" ∧ tok ≠ "None")) →
        ∃ m, create_handler_args state params = .error (.valueError m)) := by
  constructor
  · intro out h i tok p ht hp
    obtain ⟨v, hv, hout⟩ :=
      coerceLoop_ok_get (state.drop 1) (params.drop 1) out i tok p h ht hp
    refine ⟨?_, ?_, ?_⟩
    · rintro rfl
      unfold coerceOne at hv
      cases hpi : pyInt? tok with
      | none => rw [hpi] at hv; simp at hv
      | some n =>
          rw [hpi] at hv
          simp at hv
          exact ⟨n, rfl, by rw [hout, hv]⟩
    · rintro rfl
      refine ⟨?_, ?_, ?_⟩ <;> (rintro rfl; simp [coerceOne] at hv; rw [hout, hv])
    · rintro s rfl
      simp [coerceOne] at hv
      rw [hout, hv]
  · intro i tok p ht hp hbad
    have herr : ∃ e, coerceOne tok p = .error e := by
      rcases hbad with ⟨rfl, hnone⟩ | ⟨rfl, h1, h2, h3⟩
      · exact ⟨.valueError ("invalid literal for int with base 10: " ++ tok),
          by simp [coerceOne, hnone]⟩
      · exact ⟨.valueError ("Invalid bool in handler state parsing: " ++ tok),
          by simp [coerceOne, h1, h2, h3]⟩
    obtain ⟨e, he⟩ := herr
    exact coerceLoop_error_of_pos (state.drop 1) (params.drop 1) i tok p e ht hp he

/-- C3 witness: the spec example — tokens `"5"`, `"True"` against declared
`(int, bool)` coerce to `5` and `true`. -/
theorem create_handler_args_coercion_correct_witness :
    (∃ n, pyInt? "5" = some n ∧
      ([HVal.int 5, HVal.bool true] : List HVal)[0]? = some (.int n)) ∧
    (∃ m, create_handler_args ["key", "maybe"] [.otherA "ctx", .boolA] =
      .error (.valueError m)) :=
  ⟨((create_handler_args_coercion_correct ["key", "5", "True"]
        [.otherA "ctx", .intA, .boolA]).1 [HVal.int 5, HVal.bool true] rfl
        0 "5" .intA (by decide) (by decide)).1 rfl,
   (create_handler_args_coercion_correct ["key", "maybe"] [.otherA "ctx", .boolA]).2
        0 "maybe" .boolA (by decide) (by decide)
        (.inr ⟨rfl, by decide, by decide, by decide⟩)⟩

/-- C4 counterexample: with declared parameters `(ctx, x : int)` and tokens
`["5", "extra"]`, `create_handler_args` returns BOTH tokens — the extra
token is exempt from coercion but still included in the returned positional
argument list, so it is passed on to the handler, contrary to the claim
that it is ignored. -/
theorem create_handler_args_extra_token_cex :
    create_handler_args ["key", "5", "extra"] [.otherA "ctx", .intA] =
      .ok [.int 5, .str "extra"] ∧
    ([HVal.int 5, HVal.str "extra"] : List HVal) ≠ [HVal.int 5] := by
  constructor
  · rfl
  · decide

/-- C4 amended: tokens beyond the declared parameter count are exempt from
coercion but are retained, unchanged, in the returned positional argument
list (the handler receives them); fewer tokens than parameters is
permitted — the returned list always has exactly one entry per token. -/
theorem create_handler_args_extra_tokens (state : List String) (params : List Ann) :
    ∀ (out : List HVal), create_handler_args state params = .ok out →
      out.length = (state.drop 1).length ∧
      ∀ (i : Nat) (tok : String), (params.drop 1).length ≤ i →
        (state.drop 1)[i]? = some tok → out[i]? = some (.str tok) := by
  intro out h
  exact ⟨coerceLoop_ok_length (state.drop 1) (params.drop 1) out h,
    fun i tok hlen ht => coerceLoop_ok_extra (state.drop 1) (params.drop 1) out i tok h hlen ht⟩

/-- C4 witness: with one declared parameter after the Context and three
tokens, all three tokens come back, the trailing two uncoerced. -/
theorem create_handler_args_extra_tokens_witness :
    ([HVal.str "a", HVal.str "b", HVal.str "c"] : List HVal).length =
      (["k", "a", "b", "c"].drop 1).length ∧
    ([HVal.str "a", HVal.str "b", HVal.str "c"] : List HVal)[2]? = some (.str "c") :=
  have h := create_handler_args_extra_tokens ["k", "a", "b", "c"]
    [.otherA "ctx", .otherA "x"] [.str "a", .str "b", .str "c"] rfl
  ⟨h.1, h.2 2 "c" (by decide) (by decide)⟩

/-! ## Construction anatomy -/

theorem from_data_ok_anatomy (app : Option AppConfig) (hdrs : Headers) (d : Payload)
    (ctx : Context) (h : Context.from_data app hdrs d = .ok ctx) :
    ∃ r1 mems chans rols msgs tgt,
      parse_resolved ((d.data.bind (fun i => i.resolved)).getD Resolved.empty) =
        .ok (r1, mems, chans, rols, msgs) ∧
      parse_target ctx.type (d.data.bind (fun i => i.target_id)) mems msgs = .ok tgt ∧
      ctx.app = app ∧
      ctx.resolved = r1 ∧ ctx.members = mems ∧ ctx.channels = chans ∧
      ctx.roles = rols ∧ ctx.messages = msgs ∧ ctx.target = tgt ∧
      ctx.target_id = d.data.bind (fun i => i.target_id) ∧
      ctx.options = d.data.bind (fun i => i.options) ∧
      ctx.custom_id = (d.data.bind (fun i => i.custom_id)).getD "" ∧
      ctx.primary_id = (parse_custom_id ctx.custom_id).1 ∧
      ctx.handler_state = (parse_custom_id ctx.custom_id).2 ∧
      ctx.type = (match d.data.bind (fun i => i.type) with
        | some t => if t = 0 then ApplicationCommandType.CHAT_INPUT else t
        | none => ApplicationCommandType.CHAT_INPUT) := by
  unfold Context.from_data at h
  dsimp only at h
  split at h
  · simp at h
  · split at h
    · simp at h
    · rename_i x1 r1 mems chans rols msgs hres x2 tgt htgt
      simp only [Except.ok.injEq] at h
      subst h
      exact ⟨r1, mems, chans, rols, msgs, tgt, hres, htgt, rfl, rfl, rfl, rfl, rfl, rfl,
        rfl, rfl, rfl, rfl, rfl, rfl, rfl⟩

theorem headD_map_mk (l : List (List Char)) (hne : l ≠ []) :
    (l.map String.mk).headD "" = String.mk (l.headD []) := by
  cases l with
  | nil => exact absurd rfl hne
  | cons a t => rfl

/-! ## Claim theorem: custom-id decoding (C2) -/

/-- C2: after construction, the primary key is the substring of the raw
custom id before the first newline (the whole string when it contains no
newline), and the handler-state token list is exactly the full
newline-split of the raw custom id — a nonempty list of newline-free
chunks, whose newline-join restores the raw string and whose element 0 is
the primary key; an absent or empty `custom_id` yields primary key `""`
and token list `[""]`. -/
theorem parse_custom_id_correct (app : Option AppConfig) (hdrs : Headers) (d : Payload)
    (ctx : Context) (h : Context.from_data app hdrs d = .ok ctx) :
    ctx.primary_id.data = ctx.custom_id.data.takeWhile (fun c => c != '\n') ∧
    ('\n' ∉ ctx.custom_id.data → ctx.primary_id = ctx.custom_id) ∧
    ctx.handler_state ≠ [] ∧
    ctx.handler_state.headD "" = ctx.primary_id ∧
    (∀ tkn ∈ ctx.handler_state, '\n' ∉ tkn.data) ∧
    joinChars '\n' (ctx.handler_state.map String.data) = ctx.custom_id.data ∧
    ((d.data.bind (fun i => i.custom_id) = none ∨
        d.data.bind (fun i => i.custom_id) = some "") →
      ctx.primary_id = "" ∧ ctx.handler_state = [""]) := by
  obtain ⟨r1, mems, chans, rols, msgs, tgt, hres, htgt, happ, hr, hm, hc, hrl, hms, htg,
    htid, hopt, hcust, hprim, hhs, hty⟩ := from_data_ok_anatomy app hdrs d ctx h
  have hPrimData : ctx.primary_id.data = ctx.custom_id.data.takeWhile (fun c => c != '\n') := by
    rw [hprim]
    show ((pySplitOnceNL ctx.custom_id).headD "").data = _
    unfold pySplitOnceNL
    rw [headD_map_mk _ (by
      cases hsp : splitOnceChars '\n' ctx.custom_id.data with
      | nil => exact absurd hsp (splitOnceChars_ne_nil _ _)
      | cons a t => simp)]
    rw [splitOnceChars_headD]
  refine ⟨hPrimData, ?_, ?_, ?_, ?_, ?_, ?_⟩
  · intro hnl
    have : ctx.custom_id.data.takeWhile (fun c => c != '\n') = ctx.custom_id.data := by
      apply List.takeWhile_eq_self_iff.mpr
      intro a ha
      simp [bne_iff_ne]
      intro heq
      subst heq
      exact hnl ha
    have hdata : ctx.primary_id.data = ctx.custom_id.data := by rw [hPrimData, this]
    calc ctx.primary_id = String.mk ctx.primary_id.data := rfl
      _ = String.mk ctx.custom_id.data := by rw [hdata]
      _ = ctx.custom_id := rfl
  · rw [hhs]
    show pySplitNL ctx.custom_id ≠ []
    unfold pySplitNL
    cases hsp : splitChars '\n' ctx.custom_id.data with
    | nil => exact absurd hsp (splitChars_ne_nil _ _)
    | cons a t => simp
  · rw [hhs, hprim]
    show (pySplitNL ctx.custom_id).headD "" = (pySplitOnceNL ctx.custom_id).headD ""
    unfold pySplitNL pySplitOnceNL
    rw [headD_map_mk _ (by
        cases hsp : splitChars '\n' ctx.custom_id.data with
        | nil => exact absurd hsp (splitChars_ne_nil _ _)
        | cons a t => simp),
      headD_map_mk _ (by
        cases hsp : splitOnceChars '\n' ctx.custom_id.data with
        | nil => exact absurd hsp (splitOnceChars_ne_nil _ _)
        | cons a t => simp)]
    rw [splitChars_headD, splitOnceChars_headD]
  · rw [hhs]
    intro tkn htkn
    have htkn2 : tkn ∈ (splitChars '\n' ctx.custom_id.data).map (fun l => String.mk l) := htkn
    obtain ⟨p, hp, hpt⟩ := List.mem_map.mp htkn2
    subst hpt
    exact splitChars_not_mem '\n' ctx.custom_id.data p hp
  · rw [hhs]
    show joinChars '\n' ((pySplitNL ctx.custom_id).map String.data) = _
    unfold pySplitNL
    rw [List.map_map]
    have : (String.data ∘ String.mk) = id := rfl
    rw [this, List.map_id]
    exact joinChars_splitChars '\n' ctx.custom_id.data
  · intro hemp
    have hcid : ctx.custom_id = "" := by
      rcases hemp with hemp | hemp <;> rw [hcust, hemp] <;> rfl
    rw [hprim, hhs, hcid]
    exact ⟨rfl, rfl⟩

/-- C2 witness: the payload with custom id `"key\nA\nB"` decodes to primary
key `"key"` and tokens `["key", "A", "B"]`, and the empty-payload case
yields `""` and `[""]`. -/
theorem parse_custom_id_correct_witness :
    (∃ ctx : Context, Context.from_data none [] c2Payload = .ok ctx ∧
      ctx.primary_id.data = ctx.custom_id.data.takeWhile (fun c => c != '\n') ∧
      ctx.primary_id = "key" ∧ ctx.handler_state = ["key", "A", "B"]) ∧
    (∃ ctx : Context, Context.from_data none [] Payload.empty = .ok ctx ∧
      ctx.primary_id = "" ∧ ctx.handler_state = [""]) := by
  constructor
  · obtain ⟨c, hc⟩ : ∃ c : Context, Context.from_data none [] c2Payload = .ok c :=
      ⟨_, rfl⟩
    refine ⟨c, hc, (parse_custom_id_correct none [] c2Payload c hc).1, ?_, ?_⟩
    · cases hc; rfl
    · cases hc; rfl
  · obtain ⟨c, hc⟩ : ∃ c : Context, Context.from_data none [] Payload.empty = .ok c :=
      ⟨_, rfl⟩
    refine ⟨c, hc, (parse_custom_id_correct none [] Payload.empty c hc).2.2.2.2.2.2 (.inl rfl)⟩

/-! ## Resolved-table frame lemmas for the argument reconstructor -/

theorem dictGet_append_of_isSome {α : Type} (l l2 : List (String × α)) (k : String) (v : α)
    (h : dictGet l k = some v) : dictGet (l ++ l2) k = some v := by
  induction l with
  | nil => simp [dictGet] at h
  | cons p rest ih =>
      obtain ⟨k0, v0⟩ := p
      by_cases hk : k0 = k
      · simp [dictGet, hk] at h ⊢
        exact h
      · simp [dictGet, hk] at h ⊢
        exact ih h

theorem resolveUser_hasMaps (r : Resolved) (v : Json) (m : Member) (r2 : Resolved)
    (h : resolveUser r v = .ok (m, r2)) : r2.hasMaps = r.hasMaps := by
  unfold resolveUser at h
  repeat' split at h
  all_goals simp at h
  obtain ⟨h1, h2⟩ := h
  subst h2
  ext id <;>
    simp_all [Resolved.hasMaps, membersHas, usersHas, channelsHas, rolesHas,
      dictGet_dictInsert_isSome]

theorem resolveUser_ok_has (r : Resolved) (v : Json) (m : Member) (r2 : Resolved)
    (h : resolveUser r v = .ok (m, r2)) :
    ∃ idv, v = .str idv ∧ membersHas r idv = true ∧ usersHas r idv = true := by
  unfold resolveUser at h
  repeat' split at h
  all_goals simp at h
  refine ⟨_, rfl, ?_, ?_⟩ <;> simp_all [membersHas, usersHas]

theorem resolveChannel_ok_has (r : Resolved) (v : Json) (c : Channel)
    (h : resolveChannel r v = .ok c) :
    ∃ idv, v = .str idv ∧ channelsHas r idv = true := by
  unfold resolveChannel at h
  repeat' split at h
  all_goals simp at h
  refine ⟨_, rfl, ?_⟩
  simp_all [channelsHas]

theorem resolveRole_ok_has (r : Resolved) (v : Json) (rl : Role)
    (h : resolveRole r v = .ok rl) :
    ∃ idv, v = .str idv ∧ rolesHas r idv = true := by
  unfold resolveRole at h
  repeat' split at h
  all_goals simp at h
  refine ⟨_, rfl, ?_⟩
  simp_all [rolesHas]

theorem resolveUser_error_shape (r : Resolved) (v : Json) (e : PyError)
    (h : resolveUser r v = .error e) : ∃ key, e = .keyError key := by
  unfold resolveUser at h
  repeat' split at h
  all_goals simp at h
  all_goals exact ⟨_, h.symm⟩

theorem resolveChannel_error_shape (r : Resolved) (v : Json) (e : PyError)
    (h : resolveChannel r v = .error e) : ∃ key, e = .keyError key := by
  unfold resolveChannel at h
  repeat' split at h
  all_goals simp at h
  all_goals exact ⟨_, h.symm⟩

theorem resolveRole_error_shape (r : Resolved) (v : Json) (e : PyError)
    (h : resolveRole r v = .error e) : ∃ key, e = .keyError key := by
  unfold resolveRole at h
  repeat' split at h
  all_goals simp at h
  all_goals exact ⟨_, h.symm⟩

mutual

theorem caStep_hasMaps : ∀ (r : Resolved) (o : Opt) (sa : List ArgVal)
    (sk : List (String × ArgVal)) (r1 : Resolved),
    caStep r o = .ok (sa, sk, r1) → r1.hasMaps = r.hasMaps
  | r, .mk t nm v sub, sa, sk, r1 => by
      intro h
      unfold caStep at h
      repeat' split at h
      all_goals simp at h
      · obtain ⟨-, -, h3⟩ := h
        subst h3
        rename_i x sa0 sk0 r10 heq
        split at heq
        · simp at heq
          obtain ⟨-, -, h3⟩ := heq
          subst h3
          rfl
        · exact caLoop_hasMaps _ _ _ _ _ _ _ heq
      · obtain ⟨-, -, h3⟩ := h
        subst h3
        rename_i x m r2 heq
        exact resolveUser_hasMaps _ _ _ _ heq
      · obtain ⟨-, -, h3⟩ := h
        subst h3
        rfl
      · obtain ⟨-, -, h3⟩ := h
        subst h3
        rfl
      · obtain ⟨-, -, h3⟩ := h
        subst h3
        rfl

theorem caLoop_hasMaps : ∀ (r : Resolved) (args : List ArgVal)
    (kwargs : List (String × ArgVal)) (l : List Opt) (a : List ArgVal)
    (k : List (String × ArgVal)) (r1 : Resolved),
    caLoop r args kwargs l = .ok (a, k, r1) → r1.hasMaps = r.hasMaps
  | r, args, kwargs, [], a, k, r1 => by
      intro h
      unfold caLoop at h
      simp at h
      obtain ⟨-, -, h3⟩ := h
      subst h3
      rfl
  | r, args, kwargs, o :: rest, a, k, r1 => by
      intro h
      unfold caLoop at h
      split at h
      · simp at h
      · rename_i x sa sk rmid hstep
        have e1 := caStep_hasMaps _ _ _ _ _ hstep
        have e2 := caLoop_hasMaps _ _ _ _ _ _ _ h
        rw [e2, e1]

end

mutual

theorem caStep_error_shape : ∀ (r : Resolved) (o : Opt) (e : PyError),
    caStep r o = .error e → ∃ key, e = .keyError key
  | r, .mk t nm v sub, e => by
      intro h
      unfold caStep at h
      repeat' split at h
      all_goals simp at h
      · rename_i x e0 heq
        subst h
        split at heq
        · simp at heq
        · exact caLoop_error_shape _ _ _ _ _ heq
      · rename_i x e0 heq
        subst h
        exact resolveUser_error_shape _ _ _ heq
      · rename_i x e0 heq
        subst h
        exact resolveChannel_error_shape _ _ _ heq
      · rename_i x e0 heq
        subst h
        exact resolveRole_error_shape _ _ _ heq

theorem caLoop_error_shape : ∀ (r : Resolved) (args : List ArgVal)
    (kwargs : List (String × ArgVal)) (l : List Opt) (e : PyError),
    caLoop r args kwargs l = .error e → ∃ key, e = .keyError key
  | r, args, kwargs, [], e => by
      intro h
      unfold caLoop at h
      simp at h
  | r, args, kwargs, o :: rest, e => by
      intro h
      unfold caLoop at h
      split at h
      · rename_i e0 heq
        simp at h
        subst h
        exact caStep_error_shape _ _ _ heq
      · exact caLoop_error_shape _ _ _ _ _ h

end

theorem isSubT_true_of (t : Nat)
    (h : t = CommandOptionType.SUB_COMMAND ∨ t = CommandOptionType.SUB_COMMAND_GROUP) :
    isSubT t = true := by
  rcases h with rfl | rfl <;> rfl

theorem isSubT_false_of (t : Nat)
    (h : ¬(t = CommandOptionType.SUB_COMMAND ∨ t = CommandOptionType.SUB_COMMAND_GROUP)) :
    isSubT t = false := by
  simp only [isSubT, Bool.or_eq_false_iff, beq_eq_false_iff_ne]
  exact ⟨fun h1 => h (.inl h1), fun h2 => h (.inr h2)⟩

mutual

theorem caStep_ok_no_unresolved : ∀ (r : Resolved) (o : Opt) (sa : List ArgVal)
    (sk : List (String × ArgVal)) (r1 : Resolved),
    caStep r o = .ok (sa, sk, r1) → optHasUnresolved r.hasMaps o = false
  | r, .mk t nm v sub, sa, sk, r1 => by
      intro h
      by_cases hsub : t = CommandOptionType.SUB_COMMAND ∨ t = CommandOptionType.SUB_COMMAND_GROUP
      · unfold caStep at h
        rw [if_pos hsub] at h
        simp only [optHasUnresolved, isSubT_true_of t hsub, if_true]
        split at h
        · simp at h
        · rename_i sa0 sk0 r10 heq
          split at heq
          · rename_i hemp
            rw [List.isEmpty_iff.mp hemp]
            rfl
          · exact caLoop_ok_no_unresolved _ _ _ _ _ _ _ heq
      · unfold caStep at h
        rw [if_neg hsub] at h
        have hsf : isSubT t = false := isSubT_false_of t hsub
        simp only [optHasUnresolved, hsf, Bool.false_eq_true, if_false]
        by_cases hu : t = CommandOptionType.USER
        · subst hu
          rw [if_pos rfl] at h
          simp only [beq_self_eq_true, if_true]
          split at h
          · simp at h
          · rename_i m r2 heq
            obtain ⟨idv, hv, hmem, husr⟩ := resolveUser_ok_has _ _ _ _ heq
            subst hv
            simp [Resolved.hasMaps, hmem, husr]
        · rw [if_neg hu] at h
          have hub : (t == CommandOptionType.USER) = false := by
            simp [beq_eq_false_iff_ne, hu]
          simp only [hub, Bool.false_eq_true, if_false]
          by_cases hc : t = CommandOptionType.CHANNEL
          · subst hc
            rw [if_pos rfl] at h
            simp only [beq_self_eq_true, if_true]
            split at h
            · simp at h
            · rename_i c heq
              obtain ⟨idv, hv, hchan⟩ := resolveChannel_ok_has _ _ _ heq
              subst hv
              simp [Resolved.hasMaps, hchan]
          · rw [if_neg hc] at h
            have hcb : (t == CommandOptionType.CHANNEL) = false := by
              simp [beq_eq_false_iff_ne, hc]
            simp only [hcb, Bool.false_eq_true, if_false]
            by_cases hr : t = CommandOptionType.ROLE
            · subst hr
              rw [if_pos rfl] at h
              simp only [beq_self_eq_true, if_true]
              split at h
              · simp at h
              · rename_i rl heq
                obtain ⟨idv, hv, hrol⟩ := resolveRole_ok_has _ _ _ heq
                subst hv
                simp [Resolved.hasMaps, hrol]
            · rw [if_neg hr] at h
              have hrb : (t == CommandOptionType.ROLE) = false := by
                simp [beq_eq_false_iff_ne, hr]
              simp only [hrb, Bool.false_eq_true, if_false]

theorem caLoop_ok_no_unresolved : ∀ (r : Resolved) (args : List ArgVal)
    (kwargs : List (String × ArgVal)) (l : List Opt) (a : List ArgVal)
    (k : List (String × ArgVal)) (r1 : Resolved),
    caLoop r args kwargs l = .ok (a, k, r1) → optsHaveUnresolved r.hasMaps l = false
  | r, args, kwargs, [], a, k, r1 => by
      intro h
      rfl
  | r, args, kwargs, o :: rest, a, k, r1 => by
      intro h
      unfold caLoop at h
      split at h
      · simp at h
      · rename_i x sa sk rmid hstep
        have h1 := caStep_ok_no_unresolved _ _ _ _ _ hstep
        have h2 := caLoop_ok_no_unresolved _ _ _ _ _ _ _ h
        rw [caStep_hasMaps _ _ _ _ _ hstep] at h2
        simp [optsHaveUnresolved, h1, h2]

end

theorem resolveUser_merged (mems us : List (String × Dict))
    (co ro so : Option (List (String × Dict))) (v : Json) (m : Member) (r2 : Resolved)
    (hm : MergedResolved ⟨some mems, some us, co, ro, so⟩)
    (h : resolveUser ⟨some mems, some us, co, ro, so⟩ v = .ok (m, r2)) :
    r2 = ⟨some mems, some us, co, ro, so⟩ := by
  cases v with
  | str idv =>
      cases hg : dictGet mems idv with
      | none => simp [resolveUser, hg] at h
      | some mrec =>
          cases hgu : dictGet us idv with
          | none => simp [resolveUser, hg, hgu] at h
          | some u =>
              simp [resolveUser, hg, hgu] at h
              obtain ⟨h1, h2⟩ := h
              obtain ⟨u2, hu2, hmu⟩ := hm idv mrec (by simpa using hg)
              simp only [Option.getD_some] at hu2
              rw [hgu] at hu2
              simp at hu2
              subst hu2
              have e1 : dictInsert mrec "user" (Json.obj u) = mrec :=
                dictInsert_of_get_eq _ _ _ hmu
              rw [e1] at h2
              rw [dictInsert_of_get_eq _ _ _ hg] at h2
              exact h2.symm
  | null => simp [resolveUser] at h
  | int n => simp [resolveUser] at h
  | bool b => simp [resolveUser] at h
  | obj o => simp [resolveUser] at h

theorem resolveUser_merged_any (r : Resolved) (v : Json) (m : Member) (r2 : Resolved)
    (hm : MergedResolved r) (h : resolveUser r v = .ok (m, r2)) : r2 = r := by
  obtain ⟨mo, uo, co, ro, so⟩ := r
  cases mo with
  | none => simp [resolveUser] at h
  | some mems =>
      cases uo with
      | none =>
          cases v with
          | str idv =>
              cases hg : dictGet mems idv with
              | none => simp [resolveUser, hg] at h
              | some mrec => simp [resolveUser, hg] at h
          | null => simp [resolveUser] at h
          | int n => simp [resolveUser] at h
          | bool b => simp [resolveUser] at h
          | obj o => simp [resolveUser] at h
      | some us => exact resolveUser_merged mems us co ro so v m r2 hm h

mutual

theorem caStep_merged_frame : ∀ (r : Resolved) (o : Opt) (sa : List ArgVal)
    (sk : List (String × ArgVal)) (r1 : Resolved),
    MergedResolved r → caStep r o = .ok (sa, sk, r1) → r1 = r
  | r, .mk t nm v sub, sa, sk, r1 => by
      intro hm h
      unfold caStep at h
      repeat' split at h
      all_goals simp at h
      · obtain ⟨-, -, h3⟩ := h
        subst h3
        rename_i x sa0 sk0 r10 heq
        split at heq
        · simp at heq
          obtain ⟨-, -, h3⟩ := heq
          subst h3
          rfl
        · exact caLoop_merged_frame _ _ _ _ _ _ _ hm heq
      · obtain ⟨-, -, h3⟩ := h
        subst h3
        rename_i x m r2 heq
        exact resolveUser_merged_any _ _ _ _ hm heq
      · obtain ⟨-, -, h3⟩ := h
        subst h3
        rfl
      · obtain ⟨-, -, h3⟩ := h
        subst h3
        rfl
      · obtain ⟨-, -, h3⟩ := h
        subst h3
        rfl

theorem caLoop_merged_frame : ∀ (r : Resolved) (args : List ArgVal)
    (kwargs : List (String × ArgVal)) (l : List Opt) (a : List ArgVal)
    (k : List (String × ArgVal)) (r1 : Resolved),
    MergedResolved r → caLoop r args kwargs l = .ok (a, k, r1) → r1 = r
  | r, args, kwargs, [], a, k, r1 => by
      intro hm h
      unfold caLoop at h
      simp at h
      obtain ⟨-, -, h3⟩ := h
      exact h3.symm
  | r, args, kwargs, o :: rest, a, k, r1 => by
      intro hm h
      unfold caLoop at h
      split at h
      · simp at h
      · rename_i x sa sk rmid hstep
        have e1 : rmid = r := caStep_merged_frame _ _ _ _ _ hm hstep
        subst e1
        exact caLoop_merged_frame _ _ _ _ _ _ _ hm h

end

theorem create_args_chat_input_merged_frame (options : Option (List Opt)) (r : Resolved)
    (a : List ArgVal) (k : List (String × ArgVal)) (r2 : Resolved)
    (hm : MergedResolved r) (h : create_args_chat_input options r = .ok (a, k, r2)) :
    r2 = r := by
  unfold create_args_chat_input at h
  cases options with
  | none =>
      simp at h
      exact h.2.2.symm
  | some opts =>
      simp only at h
      split at h
      · simp at h
        exact h.2.2.symm
      · exact caLoop_merged_frame _ _ _ _ _ _ _ hm h

/-! ## Member/user merge lemmas for `parse_resolved` -/

theorem mergeMemberRecords_error_of_bad :
    ∀ (users : Option (List (String × Dict))) (l : List (String × Dict)),
      l.any (fun p => !(dictGet (users.getD []) p.1).isSome) = true →
      ∃ key, mergeMemberRecords users l = .error (.keyError key) := by
  intro users l
  induction l with
  | nil => intro h; simp at h
  | cons p rest ih =>
      intro h
      obtain ⟨id, mrec⟩ := p
      cases users with
      | none => exact ⟨"users", by simp [mergeMemberRecords]⟩
      | some us =>
          simp only [List.any_cons, Bool.or_eq_true] at h
          cases hg : dictGet us id with
          | none => exact ⟨id, by simp [mergeMemberRecords, hg]⟩
          | some u =>
              have hbad : rest.any (fun p => !(dictGet ((some us).getD []) p.1).isSome) = true := by
                rcases h with h | h
                · simp [hg] at h
                · exact h
              obtain ⟨key, hkey⟩ := ih hbad
              refine ⟨key, ?_⟩
              simp [mergeMemberRecords, hg, hkey]

theorem mergeMemberRecords_ok_get :
    ∀ (users : Option (List (String × Dict))) (l l2 : List (String × Dict))
      (mems : List (String × Member)),
      mergeMemberRecords users l = .ok (l2, mems) →
      ∀ id mrec, dictGet l id = some mrec →
        ∃ u, dictGet (users.getD []) id = some u ∧
          dictGet mems id = some (Member.from_dict (dictInsert mrec "user" (Json.obj u))) := by
  intro users l
  induction l with
  | nil => intro l2 mems h id mrec hg; simp [dictGet] at hg
  | cons p rest ih =>
      intro l2 mems h id mrec hg
      obtain ⟨id0, rec0⟩ := p
      cases users with
      | none => simp [mergeMemberRecords] at h
      | some us =>
          cases hg0 : dictGet us id0 with
          | none => simp [mergeMemberRecords, hg0] at h
          | some u0 =>
              rw [show mergeMemberRecords (some us) ((id0, rec0) :: rest) =
                  (match dictGet us id0 with
                   | none => .error (.keyError id0)
                   | some u =>
                     match mergeMemberRecords (some us) rest with
                     | .error e => .error e
                     | .ok (rest2, mems0) =>
                       .ok ((id0, dictInsert rec0 "user" (Json.obj u)) :: rest2,
                         (id0, Member.from_dict (dictInsert rec0 "user" (Json.obj u))) :: mems0)
                   : Except PyError (List (String × Dict) × List (String × Member)))
                from rfl] at h
              rw [hg0] at h
              cases hrec : mergeMemberRecords (some us) rest with
              | error e => rw [hrec] at h; simp at h
              | ok pr =>
                  obtain ⟨rest2, mems0⟩ := pr
                  rw [hrec] at h
                  simp at h
                  obtain ⟨h1, h2⟩ := h
                  subst h2
                  by_cases hid : id0 = id
                  · subst hid
                    simp [dictGet] at hg
                    subst hg
                    exact ⟨u0, by simpa using hg0, by simp [dictGet]⟩
                  · simp [dictGet, hid] at hg
                    obtain ⟨u, hu, hmem⟩ := ih rest2 mems0 hrec id mrec hg
                    exact ⟨u, hu, by simp [dictGet, hid, hmem]⟩

theorem mergeMemberRecords_merged :
    ∀ (users : Option (List (String × Dict))) (l l2 : List (String × Dict))
      (mems : List (String × Member)),
      mergeMemberRecords users l = .ok (l2, mems) →
      ∀ id mrec, dictGet l2 id = some mrec →
        ∃ u, dictGet (users.getD []) id = some u ∧
          dictGet mrec "user" = some (Json.obj u) := by
  intro users l
  induction l with
  | nil =>
      intro l2 mems h id mrec hg
      unfold mergeMemberRecords at h
      simp at h
      rw [h.1] at hg
      simp [dictGet] at hg
  | cons p rest ih =>
      intro l2 mems h id mrec hg
      obtain ⟨id0, rec0⟩ := p
      cases users with
      | none => simp [mergeMemberRecords] at h
      | some us =>
          cases hg0 : dictGet us id0 with
          | none => simp [mergeMemberRecords, hg0] at h
          | some u0 =>
              rw [show mergeMemberRecords (some us) ((id0, rec0) :: rest) =
                  (match dictGet us id0 with
                   | none => .error (.keyError id0)
                   | some u =>
                     match mergeMemberRecords (some us) rest with
                     | .error e => .error e
                     | .ok (rest2, mems0) =>
                       .ok ((id0, dictInsert rec0 "user" (Json.obj u)) :: rest2,
                         (id0, Member.from_dict (dictInsert rec0 "user" (Json.obj u))) :: mems0)
                   : Except PyError (List (String × Dict) × List (String × Member)))
                from rfl] at h
              rw [hg0] at h
              cases hrec : mergeMemberRecords (some us) rest with
              | error e => rw [hrec] at h; simp at h
              | ok pr =>
                  obtain ⟨rest2, mems0⟩ := pr
                  rw [hrec] at h
                  simp at h
                  obtain ⟨h1, h2⟩ := h
                  rw [h1.symm] at hg
                  by_cases hid : id0 = id
                  · subst hid
                    simp [dictGet] at hg
                    subst hg
                    exact ⟨u0, by simpa using hg0, dictGet_dictInsert_self _ _ _⟩
                  · simp [dictGet, hid] at hg
                    exact ih rest2 mems0 hrec id mrec hg

theorem parse_resolved_ok_shape (r : Resolved) (r1 : Resolved)
    (mems : List (String × Member)) (chans : List (String × Channel))
    (rols : List (String × Role)) (msgs : List (String × Message))
    (h : parse_resolved r = .ok (r1, mems, chans, rols, msgs)) :
    ∃ mems2, mergeMemberRecords r.users (r.members.getD []) = .ok (mems2, mems) ∧
      r1.users = r.users ∧ r1.channels = r.channels ∧ r1.roles = r.roles ∧
      r1.messages = r.messages ∧
      r1.members = (match r.members with | none => none | some _ => some mems2) ∧
      msgs = (r.messages.getD []).map (fun p => (p.1, Message.from_dict p.2)) := by
  unfold parse_resolved at h
  split at h
  · simp at h
  · rename_i pr mems2 mems0 hmerge
    simp at h
    obtain ⟨h1, h2, h3, h4, h5⟩ := h
    subst h1
    exact ⟨mems2, by rw [hmerge, h2], rfl, rfl, rfl, rfl, rfl, h5.symm⟩

theorem parse_resolved_merged (r : Resolved) (r1 : Resolved)
    (mems : List (String × Member)) (chans : List (String × Channel))
    (rols : List (String × Role)) (msgs : List (String × Message))
    (h : parse_resolved r = .ok (r1, mems, chans, rols, msgs)) :
    MergedResolved r1 := by
  obtain ⟨mems2, hmerge, hu, hc, hr, hmsg, hmem, -⟩ := parse_resolved_ok_shape r r1 mems chans rols msgs h
  intro id mrec hg
  rw [hmem] at hg
  cases hms : r.members with
  | none => rw [hms] at hg; simp [dictGet] at hg
  | some l =>
      rw [hms] at hg
      simp only [Option.getD_some] at hg
      rw [hu]
      exact mergeMemberRecords_merged r.users (r.members.getD []) mems2 mems hmerge id mrec hg

/-! ## Leaf-only runs of the argument reconstructor -/

theorem caStep_leaf (r : Resolved) (o : Opt) (sa : List ArgVal)
    (sk : List (String × ArgVal)) (r1 : Resolved)
    (hl : isSubT o.type = false) (h : caStep r o = .ok (sa, sk, r1)) :
    sa = [] ∧ ∃ x, sk = [(o.name, x)] ∧ (isRawLeafT o.type = true → x = .json o.value) := by
  obtain ⟨t, nm, v, sub⟩ := o
  simp only [Opt.type] at hl
  simp only [Opt.type, Opt.name, Opt.value]
  have hnsub : ¬(t = CommandOptionType.SUB_COMMAND ∨ t = CommandOptionType.SUB_COMMAND_GROUP) := by
    intro hor
    rw [isSubT_true_of t hor] at hl
    simp at hl
  unfold caStep at h
  rw [if_neg hnsub] at h
  by_cases hu : t = CommandOptionType.USER
  · subst hu
    rw [if_pos rfl] at h
    split at h
    · simp at h
    · rename_i m r2 heq
      simp at h
      obtain ⟨h1, h2, h3⟩ := h
      exact ⟨h1, .member m, h2.symm, fun hraw => absurd hraw (by decide)⟩
  · rw [if_neg hu] at h
    by_cases hc : t = CommandOptionType.CHANNEL
    · subst hc
      rw [if_pos rfl] at h
      split at h
      · simp at h
      · rename_i c heq
        simp at h
        obtain ⟨h1, h2, h3⟩ := h
        exact ⟨h1, .channel c, h2.symm, fun hraw => absurd hraw (by decide)⟩
    · rw [if_neg hc] at h
      by_cases hr : t = CommandOptionType.ROLE
      · subst hr
        rw [if_pos rfl] at h
        split at h
        · simp at h
        · rename_i rl heq
          simp at h
          obtain ⟨h1, h2, h3⟩ := h
          exact ⟨h1, .role rl, h2.symm, fun hraw => absurd hraw (by decide)⟩
      · rw [if_neg hr] at h
        simp at h
        obtain ⟨h1, h2, h3⟩ := h
        exact ⟨h1, .json v, h2.symm, fun _ => rfl⟩

theorem caLoop_leaf_run :
    ∀ (opts : List Opt) (r : Resolved) (args : List ArgVal) (kw : List (String × ArgVal))
      (a : List ArgVal) (k : List (String × ArgVal)) (r2 : Resolved),
      (∀ o ∈ opts, isSubT o.type = false) →
      (∀ o ∈ opts, dictGet kw o.name = none) →
      (opts.map Opt.name).Nodup →
      caLoop r args kw opts = .ok (a, k, r2) →
      a = args ∧
      k.map Prod.fst = kw.map Prod.fst ++ opts.map Opt.name ∧
      (∀ key v0, dictGet kw key = some v0 → dictGet k key = some v0) ∧
      (∀ o ∈ opts, isRawLeafT o.type = true → dictGet k o.name = some (.json o.value)) := by
  intro opts
  induction opts with
  | nil =>
      intro r args kw a k r2 hleaf hfresh hnodup h
      unfold caLoop at h
      simp at h
      obtain ⟨h1, h2, h3⟩ := h
      subst h1; subst h2
      exact ⟨rfl, by simp, fun key v0 hv => hv, by simp⟩
  | cons o rest ih =>
      intro r args kw a k r2 hleaf hfresh hnodup h
      unfold caLoop at h
      split at h
      · simp at h
      · rename_i x sa sk rmid hstep
        obtain ⟨hsa, xv, hsk, hxr⟩ :=
          caStep_leaf r o sa sk rmid (hleaf o (by simp)) hstep
        subst hsa; subst hsk
        rw [List.append_nil, dictUpdate_singleton,
          dictInsert_of_get_none kw o.name xv (hfresh o (by simp))] at h
        have hne : ∀ o2 ∈ rest, o2.name ≠ o.name := by
          intro o2 ho2 heq
          simp only [List.map_cons, List.nodup_cons] at hnodup
          exact hnodup.1 (heq ▸ List.mem_map_of_mem Opt.name ho2)
        have hfresh2 : ∀ o2 ∈ rest, dictGet (kw ++ [(o.name, xv)]) o2.name = none := by
          intro o2 ho2
          rw [dictGet_append_left _ _ _ (hfresh o2 (by simp [ho2]))]
          simp [dictGet, (hne o2 ho2).symm]
        have hsome : dictGet (kw ++ [(o.name, xv)]) o.name = some xv := by
          rw [dictGet_append_left _ _ _ (hfresh o (by simp))]
          simp [dictGet]
        obtain ⟨ha, hkeys, hpres, hget⟩ :=
          ih rmid args (kw ++ [(o.name, xv)]) a k r2
            (fun o2 ho2 => hleaf o2 (by simp [ho2]))
            hfresh2
            (by simp only [List.map_cons, List.nodup_cons] at hnodup; exact hnodup.2)
            h
        refine ⟨ha, ?_, ?_, ?_⟩
        · rw [hkeys]
          simp
        · intro key v0 hv
          exact hpres key v0 (dictGet_append_of_isSome _ _ _ _ hv)
        · intro o2 ho2 hraw
          rcases List.mem_cons.mp ho2 with ho2 | ho2
          · subst ho2
            have hk := hpres _ _ hsome
            rw [hxr hraw] at hk
            exact hk
          · exact hget o2 ho2 hraw

/-! ## Claim theorems: argument reconstructor (C1, C6) -/

/-- C1: for chat-input option trees, absent or empty options yield
`([], {})`; a tree of only leaf nodes yields no positional arguments and a
keyword mapping with exactly one entry per leaf keyed by the leaf's name,
holding the raw value for non-entity (string/integer/boolean/number/
mentionable/attachment) leaves; and each subcommand or subcommand-group
node contributes its name to the positional sequence in depth-first order
before its children's results — the nested path `a -> b` with leaf `x=1`
yields `(["a","b"], {"x":1})`. -/
theorem create_args_chat_input_correct :
    (∀ r : Resolved, create_args_chat_input none r = .ok ([], [], r)) ∧
    (∀ r : Resolved, create_args_chat_input (some []) r = .ok ([], [], r)) ∧
    (∀ (r : Resolved) (opts : List Opt) (a : List ArgVal)
        (k : List (String × ArgVal)) (r2 : Resolved),
      (∀ o ∈ opts, isSubT o.type = false) → (opts.map Opt.name).Nodup →
      create_args_chat_input (some opts) r = .ok (a, k, r2) →
      a = [] ∧ k.map Prod.fst = opts.map Opt.name ∧
      (∀ o ∈ opts, isRawLeafT o.type = true →
        dictGet k o.name = some (.json o.value))) ∧
    (∀ r : Resolved,
      create_args_chat_input
        (some [.mk CommandOptionType.SUB_COMMAND "a" .null
          [.mk CommandOptionType.SUB_COMMAND "b" .null
            [.mk CommandOptionType.INTEGER "x" (.int 1) []]]]) r =
        .ok ([.json (.str "a"), .json (.str "b")], [("x", .json (.int 1))], r)) := by
  refine ⟨fun r => rfl, fun r => rfl, ?_, fun r => rfl⟩
  intro r opts a k r2 hleaf hnodup h
  cases opts with
  | nil =>
      simp [create_args_chat_input] at h
      obtain ⟨h1, h2, h3⟩ := h
      subst h1; subst h2
      exact ⟨rfl, by simp, by simp⟩
  | cons o os =>
      have h2 : caLoop r [] [] (o :: os) = .ok (a, k, r2) := h
      obtain ⟨ha, hkeys, hpres, hget⟩ :=
        caLoop_leaf_run (o :: os) r [] [] a k r2 hleaf (fun o2 ho2 => rfl) hnodup h2
      exact ⟨ha, by simpa using hkeys, hget⟩

/-- C1 witness: a two-leaf tree produces no positional arguments and one
keyword entry per leaf with the raw values. -/
theorem create_args_chat_input_correct_witness :
    ∃ (a : List ArgVal) (k : List (String × ArgVal)) (r2 : Resolved),
      create_args_chat_input
        (some [Opt.mk CommandOptionType.STRING "x" (Json.str "v") [],
               Opt.mk CommandOptionType.INTEGER "y" (Json.int 2) []]) Resolved.empty =
        .ok (a, k, r2) ∧
      a = [] ∧ k.map Prod.fst = ["x", "y"] ∧
      dictGet k "x" = some (.json (.str "v")) ∧
      dictGet k "y" = some (.json (.int 2)) := by
  refine ⟨[], [("x", .json (.str "v")), ("y", .json (.int 2))], Resolved.empty, rfl, ?_⟩
  have h := (create_args_chat_input_correct).2.2.1 Resolved.empty
    [Opt.mk CommandOptionType.STRING "x" (Json.str "v") [],
     Opt.mk CommandOptionType.INTEGER "y" (Json.int 2) []]
    [] [("x", .json (.str "v")), ("y", .json (.int 2))] Resolved.empty
    (by intro o ho; rcases List.mem_cons.mp ho with rfl | ho
        · rfl
        · rcases List.mem_cons.mp ho with rfl | ho
          · rfl
          · simp at ho)
    (by decide) rfl
  refine ⟨h.1, h.2.1, ?_, ?_⟩
  · exact h.2.2 (Opt.mk CommandOptionType.STRING "x" (Json.str "v") []) (by simp) rfl
  · exact h.2.2 (Opt.mk CommandOptionType.INTEGER "y" (Json.int 2) []) (by simp) rfl

/-- C6: an option value or target id referencing an entity id absent from
the corresponding resolved map makes argument reconstruction / target
determination fail with the key-lookup error (the spec's
`UnresolvedReference`, realized as Python `KeyError`) — a hard failure,
never a silent null standing in for the entity. -/
theorem unresolved_reference_errors :
    (∀ (r : Resolved) (opts : List Opt),
      optsHaveUnresolved r.hasMaps opts = true →
      ∃ key, create_args_chat_input (some opts) r = .error (.keyError key)) ∧
    (∀ (tid : Option String) (members : List (String × Member))
        (messages : List (String × Message)),
      (match tid with | none => True | some t => dictGet members t = none) →
      ∃ key, parse_target ApplicationCommandType.USER tid members messages =
        .error (.keyError key)) ∧
    (∀ (tid : Option String) (members : List (String × Member))
        (messages : List (String × Message)),
      (match tid with | none => True | some t => dictGet messages t = none) →
      ∃ key, parse_target ApplicationCommandType.MESSAGE tid members messages =
        .error (.keyError key)) := by
  refine ⟨?_, ?_, ?_⟩
  · intro r opts hunres
    cases opts with
    | nil => simp [optsHaveUnresolved] at hunres
    | cons o os =>
        cases hcr : caLoop r [] [] (o :: os) with
        | ok triple =>
            obtain ⟨a, k, r2⟩ := triple
            have := caLoop_ok_no_unresolved _ _ _ _ _ _ _ hcr
            rw [this] at hunres
            simp at hunres
        | error e =>
            obtain ⟨key, hkey⟩ := caLoop_error_shape _ _ _ _ _ hcr
            subst hkey
            refine ⟨key, ?_⟩
            have h2 : create_args_chat_input (some (o :: os)) r = caLoop r [] [] (o :: os) := rfl
            rw [h2, hcr]
  · intro tid members messages hmiss
    unfold parse_target
    rw [if_pos rfl]
    cases tid with
    | none => exact ⟨"None", rfl⟩
    | some t =>
        have hm2 : dictGet members t = none := hmiss
        exact ⟨t, by simp [hm2]⟩
  · intro tid members messages hmiss
    unfold parse_target
    rw [if_neg (by decide), if_pos rfl]
    cases tid with
    | none => exact ⟨"None", rfl⟩
    | some t =>
        have hm2 : dictGet messages t = none := hmiss
        exact ⟨t, by simp [hm2]⟩

/-- C6 witness: a user option whose id is absent from the resolved table
errors, and a user-command target id absent from the member map errors. -/
theorem unresolved_reference_errors_witness :
    (∃ key, create_args_chat_input
        (some [Opt.mk CommandOptionType.USER "u" (Json.str "9") []]) Resolved.empty =
        .error (.keyError key)) ∧
    (∃ key, parse_target ApplicationCommandType.USER (some "9") [] [] =
      .error (.keyError key)) :=
  ⟨(unresolved_reference_errors).1 Resolved.empty
      [Opt.mk CommandOptionType.USER "u" (Json.str "9") []] rfl,
   (unresolved_reference_errors).2.1 (some "9") [] [] rfl⟩

/-! ## Claim theorems: post-construction immutability and the member/user
merge invariant (C7, C10) -/

/-- C7: a context built by `Context.from_data` is left entirely unchanged by
`create_args` — `parse_resolved` already merged every member record with
its user record, so the re-merge performed during chat-input argument
reconstruction writes back the value each record already holds, and the
user/message branches never touch the parsed fields (handler-argument
coercion operates on a copy of the token list and never writes to the
context either, as `create_handler_args` is a pure function of it). -/
theorem create_args_preserves_context (app : Option AppConfig) (hdrs : Headers)
    (d : Payload) (ctx : Context) (h : Context.from_data app hdrs d = .ok ctx) :
    ∀ res ctx2, ctx.create_args = .ok (res, ctx2) → ctx2 = ctx := by
  intro res ctx2 hca
  obtain ⟨r1, mems, chans, rols, msgs, tgt, hres, htgt, happ, hr, hm, hc, hrl, hms, htg,
    htid, hopt, hcust, hprim, hhs, hty⟩ := from_data_ok_anatomy app hdrs d ctx h
  have hmerged : MergedResolved ctx.resolved := by
    rw [hr]
    exact parse_resolved_merged _ _ _ _ _ _ hres
  unfold Context.create_args at hca
  by_cases h1 : ctx.type = ApplicationCommandType.CHAT_INPUT
  · rw [if_pos h1] at hca
    split at hca
    · simp at hca
    · rename_i x a k r2 heq
      simp at hca
      obtain ⟨h2, h3⟩ := hca
      rw [create_args_chat_input_merged_frame _ _ _ _ _ hmerged heq] at h3
      rw [← h3]
  · rw [if_neg h1] at hca
    by_cases h2 : ctx.type = ApplicationCommandType.USER
    · rw [if_pos h2] at hca
      simp at hca
      exact hca.2.symm
    · rw [if_neg h2] at hca
      by_cases h3 : ctx.type = ApplicationCommandType.MESSAGE
      · rw [if_pos h3] at hca
        simp at hca
        exact hca.2.symm
      · rw [if_neg h3] at hca
        simp at hca
        exact hca.2.symm

/-- C7 witness: the chat-input context with a user option comes back from
`create_args` with every field, including the retained resolved table,
unchanged. -/
theorem create_args_preserves_context_witness :
    Context.from_data none [] userOptionPayload = .ok userOptionContext ∧
    ∃ res, Context.create_args userOptionContext = .ok (res, userOptionContext) ∧
      (∀ res2 ctx2, Context.create_args userOptionContext = .ok (res2, ctx2) →
        ctx2 = userOptionContext) :=
  ⟨rfl,
   some ([], [("u", ArgVal.member ⟨mergedMemberRecord⟩)]), rfl,
   fun res2 ctx2 hca =>
     create_args_preserves_context none [] userOptionPayload userOptionContext rfl
       res2 ctx2 hca⟩

/-- C10 (implicit): successful construction requires every resolved member
id to also appear in the resolved users map — a member id without a user
record makes `parse_resolved` (and hence construction) fail with a
key-lookup error — and in every successfully constructed context each
member of the resolved table is built from its record merged with the
matching user record, so it carries that user record under its `"user"`
key. -/
theorem members_users_merge_invariant (app : Option AppConfig) (hdrs : Headers)
    (d : Payload) :
    (badMembers ((d.data.bind (fun i => i.resolved)).getD Resolved.empty) = true →
      ∃ key, Context.from_data app hdrs d = .error (.keyError key)) ∧
    (∀ ctx, Context.from_data app hdrs d = .ok ctx →
      ∀ id mrec,
        dictGet ((((d.data.bind (fun i => i.resolved)).getD Resolved.empty).members).getD [])
          id = some mrec →
        ∃ u,
          dictGet ((((d.data.bind (fun i => i.resolved)).getD Resolved.empty).users).getD [])
            id = some u ∧
          dictGet ctx.members id =
            some (Member.from_dict (dictInsert mrec "user" (Json.obj u))) ∧
          Member.user (Member.from_dict (dictInsert mrec "user" (Json.obj u))) =
            Json.obj u) := by
  constructor
  · intro hbad
    have hbad2 : (((((d.data.bind (fun i => i.resolved)).getD Resolved.empty).members).getD []) :
        List (String × Dict)).any
        (fun p => !(dictGet ((((d.data.bind (fun i => i.resolved)).getD
          Resolved.empty).users).getD []) p.1).isSome) = true := hbad
    obtain ⟨key, hkey⟩ := mergeMemberRecords_error_of_bad _ _ hbad2
    refine ⟨key, ?_⟩
    unfold Context.from_data
    dsimp only
    have hpr : parse_resolved ((d.data.bind (fun i => i.resolved)).getD Resolved.empty) =
        .error (.keyError key) := by
      unfold parse_resolved
      rw [hkey]
    rw [hpr]
  · intro ctx h id mrec hg
    obtain ⟨r1, mems, chans, rols, msgs, tgt, hres, htgt, happ, hr, hm, hc, hrl, hms, htg,
      htid, hopt, hcust, hprim, hhs, hty⟩ := from_data_ok_anatomy app hdrs d ctx h
    obtain ⟨mems2, hmerge, -, -, -, -, -, -⟩ :=
      parse_resolved_ok_shape _ _ _ _ _ _ hres
    obtain ⟨u, hu, hget⟩ := mergeMemberRecords_ok_get _ _ _ _ hmerge id mrec hg
    refine ⟨u, hu, ?_, ?_⟩
    · rw [hm]
      exact hget
    · simp [Member.user, Member.from_dict, dictGet_dictInsert_self]

/-- C10 witness: a payload with resolved member `"7"` and matching user
entry constructs successfully, and the parsed member map holds the merged
record. -/
theorem members_users_merge_invariant_witness :
    ∃ (ctx : Context) (u : Dict), Context.from_data none [] mergePayload = .ok ctx ∧
      dictGet ctx.members "7" =
        some (Member.from_dict (dictInsert [("nick", Json.str "n")] "user" (Json.obj u))) := by
  obtain ⟨c, hc⟩ : ∃ c : Context, Context.from_data none [] mergePayload = .ok c := ⟨_, rfl⟩
  obtain ⟨u, hu, hm, -⟩ := (members_users_merge_invariant none [] mergePayload).2 c hc
    "7" [("nick", Json.str "n")] rfl
  exact ⟨c, u, hc, hm⟩

/-! ## Claim theorem: targets and dispatch (C5) -/

/-- C5: after construction, a user-command context's target is the resolved
member at `target_id`, a message-command context's target is the resolved
message at `target_id`, and any other type leaves the target null;
`create_args` dispatches on the type — chat-input delegates to the argument
reconstructor over `options` and `resolved`, user and message commands
return `([target], {})`.  The spec §8 scenario payload (type 2 = MESSAGE,
resolved message `"42"` with content `"hi"`) produces a target whose
content is `"hi"` and `createArgs` returns `([target], {})`. -/
theorem parse_target_create_args_dispatch :
    (∀ (app : Option AppConfig) (hdrs : Headers) (d : Payload) (ctx : Context),
      Context.from_data app hdrs d = .ok ctx →
      (ctx.type = ApplicationCommandType.USER →
        ∃ tid m, ctx.target_id = some tid ∧ dictGet ctx.members tid = some m ∧
          ctx.target = .memberTarget m) ∧
      (ctx.type = ApplicationCommandType.MESSAGE →
        ∃ tid m, ctx.target_id = some tid ∧ dictGet ctx.messages tid = some m ∧
          ctx.target = .messageTarget m) ∧
      (ctx.type ≠ ApplicationCommandType.USER → ctx.type ≠ ApplicationCommandType.MESSAGE →
        ctx.target = .noTarget) ∧
      (ctx.type = ApplicationCommandType.USER ∨ ctx.type = ApplicationCommandType.MESSAGE →
        ctx.create_args = .ok (some ([targetToArgVal ctx.target], []), ctx)) ∧
      (ctx.type = ApplicationCommandType.CHAT_INPUT →
        ∀ a k r2, create_args_chat_input ctx.options ctx.resolved = .ok (a, k, r2) →
          ctx.create_args = .ok (some (a, k), { ctx with resolved := r2 }))) ∧
    (Context.from_data none [] scenarioPayload = .ok scenarioContext ∧
      (∃ m, scenarioContext.target = .messageTarget m ∧ m.content = .str "hi") ∧
      scenarioContext.create_args =
        .ok (some ([targetToArgVal scenarioContext.target], []), scenarioContext)) := by
  constructor
  · intro app hdrs d ctx h
    obtain ⟨r1, mems, chans, rols, msgs, tgt, hres, htgt, happ, hr, hm, hc, hrl, hms, htg,
      htid, hopt, hcust, hprim, hhs, hty⟩ := from_data_ok_anatomy app hdrs d ctx h
    refine ⟨?_, ?_, ?_, ?_, ?_⟩
    · intro hU
      rw [hU] at htgt
      unfold parse_target at htgt
      rw [if_pos rfl] at htgt
      cases htid2 : d.data.bind (fun i => i.target_id) with
      | none => rw [htid2] at htgt; simp at htgt
      | some t =>
          rw [htid2] at htgt
          dsimp only at htgt
          cases hg : dictGet mems t with
          | none => rw [hg] at htgt; simp at htgt
          | some m =>
              rw [hg] at htgt
              simp at htgt
              exact ⟨t, m, by rw [htid, htid2], by rw [hm]; exact hg, by rw [htg, ← htgt]⟩
    · intro hM
      rw [hM] at htgt
      unfold parse_target at htgt
      rw [if_neg (by decide), if_pos rfl] at htgt
      cases htid2 : d.data.bind (fun i => i.target_id) with
      | none => rw [htid2] at htgt; simp at htgt
      | some t =>
          rw [htid2] at htgt
          dsimp only at htgt
          cases hg : dictGet msgs t with
          | none => rw [hg] at htgt; simp at htgt
          | some m =>
              rw [hg] at htgt
              simp at htgt
              exact ⟨t, m, by rw [htid, htid2], by rw [hms]; exact hg, by rw [htg, ← htgt]⟩
    · intro hnU hnM
      unfold parse_target at htgt
      rw [if_neg hnU, if_neg hnM] at htgt
      simp at htgt
      rw [htg, ← htgt]
    · intro hor
      unfold Context.create_args
      rcases hor with hU | hM
      · rw [if_neg (by rw [hU]; decide), if_pos hU]
      · rw [if_neg (by rw [hM]; decide), if_neg (by rw [hM]; decide), if_pos hM]
    · intro hCI a k r2 heq
      unfold Context.create_args
      rw [if_pos hCI, heq]
  · exact ⟨rfl, ⟨⟨[("id", Json.str "42"), ("content", Json.str "hi")]⟩, rfl, rfl⟩, rfl⟩

/-- C5 witness: the scenario context is a message command whose target is
the resolved message at `"42"`. -/
theorem parse_target_create_args_dispatch_witness :
    ∃ tid m, scenarioContext.target_id = some tid ∧
      dictGet scenarioContext.messages tid = some m ∧
      scenarioContext.target = .messageTarget m :=
  ((parse_target_create_args_dispatch).1 none [] scenarioPayload scenarioContext
    rfl).2.1 rfl

/-! ## Claim theorems: outbound actions (C8, C9) -/

/-- C8 counterexample: for the same context and inputs, the blocking `edit`
checks the response status (raises on non-2xx) and passes the auth headers,
while the suspending `edit` passes no headers and never checks the status —
so the two variants are not behaviorally identical in their outbound
actions. -/
theorem sync_async_edit_differ :
    (Context.edit sampleContext (.text "hi") "@original").map RequestSpec.checkStatus =
      some true ∧
    (AsyncContext.edit sampleContext (.text "hi") "@original").map RequestSpec.checkStatus =
      some false ∧
    (AsyncContext.edit sampleContext (.text "hi") "@original").map RequestSpec.headers =
      some none ∧
    Context.edit sampleContext (.text "hi") "@original" ≠
      AsyncContext.edit sampleContext (.text "hi") "@original" := by
  refine ⟨rfl, rfl, rfl, ?_⟩
  intro h
  have h2 : (some true : Option Bool) = some false :=
    congrArg (Option.map RequestSpec.checkStatus) h
  simp at h2

/-- C8 amended: for the same context state and inputs, the blocking and
suspending variants of send/edit/delete/overwritePermissions compute the
same method, URL and body and make a request under exactly the same
conditions; they differ in failure reporting and headers — the blocking
variant always passes the auth headers and checks the response status
(raising on non-2xx), while the suspending variant never checks the status
and passes no headers on edit and delete (it does pass them on send and
overwritePermissions). -/
theorem sync_async_outbound_equiv (ctx : Context) (resp : RetVal) (msg : String)
    (perms : List Permission) (cmd : Option String) :
    (Context.edit ctx resp msg).map reqCore = (AsyncContext.edit ctx resp msg).map reqCore ∧
    (Context.delete ctx msg).map reqCore = (AsyncContext.delete ctx msg).map reqCore ∧
    (Context.send ctx resp).map reqCore = (AsyncContext.send ctx resp).map reqCore ∧
    (Context.overwrite_permissions ctx perms cmd).map (Option.map reqCore) =
      (AsyncContext.overwrite_permissions ctx perms cmd).map (Option.map reqCore) ∧
    (Context.edit ctx resp msg).map (fun s => (s.headers, s.checkStatus)) =
      (Context.edit ctx resp msg).map (fun _ => (some ctx.authHeaders, true)) ∧
    (Context.delete ctx msg).map (fun s => (s.headers, s.checkStatus)) =
      (Context.delete ctx msg).map (fun _ => (some ctx.authHeaders, true)) ∧
    (Context.send ctx resp).map (fun s => (s.headers, s.checkStatus)) =
      (Context.send ctx resp).map (fun _ => (some ctx.authHeaders, true)) ∧
    (Context.overwrite_permissions ctx perms cmd).map
        (Option.map (fun s => (s.headers, s.checkStatus))) =
      (Context.overwrite_permissions ctx perms cmd).map
        (Option.map (fun _ => (some ctx.authHeaders, true))) ∧
    (AsyncContext.edit ctx resp msg).map (fun s => (s.headers, s.checkStatus)) =
      (AsyncContext.edit ctx resp msg).map (fun _ => ((none : Option Headers), false)) ∧
    (AsyncContext.delete ctx msg).map (fun s => (s.headers, s.checkStatus)) =
      (AsyncContext.delete ctx msg).map (fun _ => ((none : Option Headers), false)) ∧
    (AsyncContext.send ctx resp).map (fun s => (s.headers, s.checkStatus)) =
      (AsyncContext.send ctx resp).map (fun _ => (some ctx.authHeaders, false)) ∧
    (AsyncContext.overwrite_permissions ctx perms cmd).map
        (Option.map (fun s => (s.headers, s.checkStatus))) =
      (AsyncContext.overwrite_permissions ctx perms cmd).map
        (Option.map (fun _ => (some ctx.authHeaders, false))) := by
  cases happ : ctx.app with
  | none =>
      simp [Context.edit, AsyncContext.edit, Context.delete, AsyncContext.delete,
        Context.send, AsyncContext.send, Context.overwrite_permissions,
        AsyncContext.overwrite_permissions, happ, Except.map]
  | some app =>
      by_cases hf : app.dont_register_with_discord <;>
        cases hg : ctx.get_command cmd <;>
          simp [Context.edit, AsyncContext.edit, Context.delete, AsyncContext.delete,
            Context.send, AsyncContext.send, Context.overwrite_permissions,
            AsyncContext.overwrite_permissions, happ, hf, hg, reqCore, Except.map]

/-- C9 counterexample: with the "do not contact remote API" flag set,
`overwrite_permissions` called with an unregistered command name raises
`Unknown command` (the lookup happens while building the URL, before the
flag check), so it does not return without error for every input. -/
theorem outbound_noop_flag_cex :
    offlineApp.dont_register_with_discord = true ∧
    Context.overwrite_permissions offlineContext [] (some "nope") =
      .error (.valueError "Unknown command: nope") := ⟨rfl, rfl⟩

/-- C9 amended: with the "do not contact remote API" flag set, none of the
four outbound actions (in either variant) issues an HTTP request; send,
edit and delete return immediately without error for every input, and
overwrite_permissions returns without error whenever its command-name
lookup succeeds (in particular always when no name is given), though a
failing lookup still raises before any request is attempted. -/
theorem outbound_noop_flag (ctx : Context) (app : AppConfig)
    (happ : ctx.app = some app) (hflag : app.dont_register_with_discord = true) :
    (∀ resp, Context.send ctx resp = none) ∧
    (∀ resp msg, Context.edit ctx resp msg = none) ∧
    (∀ msg, Context.delete ctx msg = none) ∧
    (∀ resp, AsyncContext.send ctx resp = none) ∧
    (∀ resp msg, AsyncContext.edit ctx resp msg = none) ∧
    (∀ msg, AsyncContext.delete ctx msg = none) ∧
    (∀ perms cmd req, Context.overwrite_permissions ctx perms cmd ≠ .ok (some req)) ∧
    (∀ perms cmd req, AsyncContext.overwrite_permissions ctx perms cmd ≠ .ok (some req)) ∧
    (∀ perms, Context.overwrite_permissions ctx perms none = .ok none) ∧
    (∀ perms, AsyncContext.overwrite_permissions ctx perms none = .ok none) := by
  refine ⟨?_, ?_, ?_, ?_, ?_, ?_, ?_, ?_, ?_, ?_⟩
  · intro resp
    simp [Context.send, happ, hflag]
  · intro resp msg
    simp [Context.edit, happ, hflag]
  · intro msg
    simp [Context.delete, happ, hflag]
  · intro resp
    simp [AsyncContext.send, happ, hflag]
  · intro resp msg
    simp [AsyncContext.edit, happ, hflag]
  · intro msg
    simp [AsyncContext.delete, happ, hflag]
  · intro perms cmd req
    cases hg : ctx.get_command cmd <;>
      simp [Context.overwrite_permissions, happ, hflag, hg]
  · intro perms cmd req
    cases hg : ctx.get_command cmd <;>
      simp [AsyncContext.overwrite_permissions, happ, hflag, hg]
  · intro perms
    simp [Context.overwrite_permissions, Context.get_command, happ, hflag]
  · intro perms
    simp [AsyncContext.overwrite_permissions, Context.get_command, happ, hflag]

/-- C9 witness: under the flag, `delete` is a no-op and
`overwrite_permissions` for the invoking command returns without error. -/
theorem outbound_noop_flag_witness :
    Context.delete offlineContext "@original" = none ∧
    Context.overwrite_permissions offlineContext [] none = .ok none :=
  have h := outbound_noop_flag offlineContext offlineApp rfl rfl
  ⟨h.2.2.1 "@original", h.2.2.2.2.2.2.2.2.1 []⟩
